import Mathlib

/-!
# SimulatedTrader: the strategy engine, embedded and verified

A shallow embedding of `cpp_engine/src/StrategyEngine.cpp` (moving averages,
crossover signals, the trade simulator, the equity curve and the buy-and-hold
benchmark) and of the metrics and the signal shift of `cpp_engine/src/main.cpp`,
followed by theorems about them.

Conventions of the embedding:

* `double` is read over exact arithmetic: a finite `double` is a rational
  number (`ℚ`).  A moving-average series may hold the quiet NaN that the engine
  pushes for "not enough history": such a series is a `List (Option ℚ)` with
  `none` for NaN, and `std::isnan` is `Option.isNone`.  Infinities and rounding
  are not modelled; a division by zero, which the engine never guards, is the
  `0` of Mathlib's field division.
* `size_t` is `Nat` and `int` is `Int`.  The only conversion to `int` is the
  `static_cast<int>` of a quotient of doubles, which truncates toward zero; the
  source leaves the conversion of a value beyond the range of `int` undefined,
  and the embedding, exact throughout, gives it the truncated value as well.
  No `int` is ever added to or multiplied with an `int` other than `0`.
* `std::vector<T>` is `List T`; `v[i]` is `List.getD` (the engine never checks
  an index, so an index out of range has no defined behaviour in the source;
  the theorems that read `signals[i]` assume the lengths that make every
  access in range).  `generateCrossoverSignals_checked` runs the signal loop
  with every read checked and returns `none` where the source reads past the
  end of a series; it agrees with the unchecked loop whenever the series have
  the length of the data.
* the library functions `std::sqrt` and `std::pow` of `main.cpp` are
  parameters of the functions that call them.
* a `for (size_t i = 0; i < n; ++i)` loop is a left fold of the loop body over
  `List.range n`; the state after the first `k` iterations is the fold over
  `List.range k`.
-/

namespace SimulatedTrader

/-! ## Data model (`CSVParser.h`, `StrategyEngine.h`) -/

/-- One daily price row (`struct PriceData`). -/
structure PriceData where
  date : String
  open_ : ℚ
  high : ℚ
  low : ℚ
  close : ℚ
  volume : Int
deriving DecidableEq

/-- The default member initialisers of `struct PriceData`. -/
instance : Inhabited PriceData := ⟨⟨"", 0, 0, 0, 0, 0⟩⟩

/-- One executed order (`struct Trade`). -/
structure Trade where
  date : String
  action : String
  price : ℚ
  shares : Int
  cash : ℚ
  portfolio_value : ℚ
deriving DecidableEq

/-- The expression `data[i].close`. -/
def closeAt (data : List PriceData) (i : Nat) : ℚ := (data.getD i default).close

/-- The expression `data[i].date`. -/
def dateAt (data : List PriceData) (i : Nat) : String := (data.getD i default).date

/-! ## Moving averages -/

/-- Body of the loop of `StrategyEngine::calculateSMA`; the state is the
running `sum` and the vector `sma` built so far. -/
def calculateSMA_step (data : List PriceData) (window : Nat)
    (st : ℚ × List (Option ℚ)) (i : Nat) : ℚ × List (Option ℚ) :=
  let sum := st.1 + closeAt data i
  let sum := if i ≥ window then sum - closeAt data (i - window) else sum
  if i ≥ window - 1 then (sum, st.2 ++ [some (sum / (window : ℚ))])
  else (sum, st.2 ++ [none])

/-- `StrategyEngine::calculateSMA`. -/
def calculateSMA (data : List PriceData) (window : Nat) : List (Option ℚ) :=
  if window = 0 ∨ data.length < window then []
  else ((List.range data.length).foldl (calculateSMA_step data window) (0, [])).2

/-- The inner loop of `StrategyEngine::calculateWMA`: the weighted sum of the
`window` closes ending at index `i`, the most recent one weighted `window`. -/
def calculateWMA_weighted_sum (data : List PriceData) (window i : Nat) : ℚ :=
  (List.range window).foldl
    (fun weighted_sum j => weighted_sum + closeAt data (i - j) * ((window - j : Nat) : ℚ)) 0

/-- Body of the outer loop of `StrategyEngine::calculateWMA`. -/
def calculateWMA_step (data : List PriceData) (window : Nat) (weight_sum : ℚ)
    (wma : List (Option ℚ)) (i : Nat) : List (Option ℚ) :=
  if i + 1 < window then wma ++ [none]
  else wma ++ [some (calculateWMA_weighted_sum data window i / weight_sum)]

/-- `StrategyEngine::calculateWMA`. -/
def calculateWMA (data : List PriceData) (window : Nat) : List (Option ℚ) :=
  if window = 0 ∨ data.length < window then []
  else
    let weight_sum : ℚ := ((window * (window + 1) : Nat) : ℚ) / 2
    (List.range data.length).foldl (calculateWMA_step data window weight_sum) []

/-- Brute-force reference for the simple moving average: the arithmetic mean
of the `w` closes `closes[i-w+1..i]`, recomputed from scratch. -/
def windowMean (data : List PriceData) (w i : Nat) : ℚ :=
  (((data.drop (i + 1 - w)).take w).map PriceData.close).sum / (w : ℚ)

/-! ## Crossover signals -/

/-- Body of the loop of `StrategyEngine::generateCrossoverSignals`. -/
def generateCrossoverSignals_step (shortMA longMA : List (Option ℚ))
    (signals : List Int) (i : Nat) : List Int :=
  match shortMA.getD (i - 1) none, longMA.getD (i - 1) none,
        shortMA.getD i none, longMA.getD i none with
  | some s0, some l0, some s1, some l1 =>
    if s0 ≤ l0 ∧ s1 > l1 then signals.set i 1
    else if s0 ≥ l0 ∧ s1 < l1 then signals.set i (-1)
    else signals
  | _, _, _, _ => signals

/-- `StrategyEngine::generateCrossoverSignals`: a vector of `data.size()`
zeros, updated by the loop over `i = 1 .. data.size() - 1`. -/
def generateCrossoverSignals (data : List PriceData)
    (shortMA longMA : List (Option ℚ)) : List Int :=
  (List.range' 1 (data.length - 1)).foldl
    (generateCrossoverSignals_step shortMA longMA) (List.replicate data.length 0)


/-! ## The trade simulator -/

/-- The conversion `static_cast<int>(x)` of a `double`: truncation toward
zero. -/
def static_cast_int (x : ℚ) : Int := Int.tdiv x.num (x.den : Int)

/-- The local variables of `StrategyEngine::simulateTrades`. -/
structure SimState where
  trades : List Trade
  cash : ℚ
  shares : Int
  portfolio_value : ℚ
deriving DecidableEq

/-- The locals of `simulateTrades` before its loop. -/
def simulateTrades_init (initial_capital : ℚ) : SimState :=
  { trades := [], cash := initial_capital, shares := 0, portfolio_value := initial_capital }

/-- Body of the daily loop of `StrategyEngine::simulateTrades`. -/
def simulateTrades_step (data : List PriceData) (signals : List Int)
    (flat_fee percent_fee slippage dividend_yield : ℚ) (st : SimState) (i : Nat) : SimState :=
  -- Daily dividend
  let cash : ℚ :=
    if st.shares > 0 ∧ dividend_yield > 0 then
      st.cash + (st.shares : ℚ) * closeAt data i * (dividend_yield / 252)
    else st.cash
  let exec_price : ℚ := closeAt data i
  if signals.getD i 0 = 1 ∧ st.shares = 0 then
    let exec_price : ℚ := exec_price * (1 + slippage)
    let total_fee : ℚ := flat_fee + percent_fee * exec_price
    let buy_shares : Int := static_cast_int ((cash - total_fee) / exec_price)
    if buy_shares > 0 then
      let cost : ℚ := (buy_shares : ℚ) * exec_price + total_fee
      let cash : ℚ := cash - cost
      let shares : Int := st.shares + buy_shares
      let portfolio_value : ℚ := cash + (shares : ℚ) * exec_price
      { trades := st.trades ++
          [⟨dateAt data i, "BUY", exec_price, buy_shares, cash, portfolio_value⟩],
        cash := cash, shares := shares, portfolio_value := portfolio_value }
    else
      { trades := st.trades, cash := cash, shares := st.shares,
        portfolio_value := st.portfolio_value }
  else if signals.getD i 0 = -1 ∧ st.shares > 0 then
    let exec_price : ℚ := exec_price * (1 - slippage)
    let total_fee : ℚ := flat_fee + percent_fee * exec_price
    let cash : ℚ := cash + ((st.shares : ℚ) * exec_price - total_fee)
    { trades := st.trades ++ [⟨dateAt data i, "SELL", exec_price, st.shares, cash, cash⟩],
      cash := cash, shares := 0, portfolio_value := cash }
  else
    { trades := st.trades, cash := cash, shares := st.shares,
      portfolio_value := cash + (st.shares : ℚ) * exec_price }

/-- The locals of `simulateTrades` after the first `k` iterations of its
daily loop. -/
def simulateTrades_loop (data : List PriceData) (signals : List Int)
    (initial_capital flat_fee percent_fee slippage dividend_yield : ℚ) (k : Nat) : SimState :=
  (List.range k).foldl
    (simulateTrades_step data signals flat_fee percent_fee slippage dividend_yield)
    (simulateTrades_init initial_capital)

/-- The block after the loop of `simulateTrades` ("Final state: if holding
shares, log final value"): the forced final liquidation.  As in the source the
block updates `cash` and the log and leaves the local `shares` as it is. -/
def simulateTrades_final (data : List PriceData) (flat_fee percent_fee slippage : ℚ)
    (st : SimState) : SimState :=
  if st.shares > 0 then
    let exec_price : ℚ := (data.getLastD default).close * (1 - slippage)
    let total_fee : ℚ := flat_fee + percent_fee * exec_price
    let cash : ℚ := st.cash + ((st.shares : ℚ) * exec_price - total_fee)
    { trades := st.trades ++
        [⟨(data.getLastD default).date, "SELL", exec_price, st.shares, cash, cash⟩],
      cash := cash, shares := st.shares, portfolio_value := st.portfolio_value }
  else st

/-- The locals of `simulateTrades` when it returns. -/
def simulateTrades_end (data : List PriceData) (signals : List Int)
    (initial_capital flat_fee percent_fee slippage dividend_yield : ℚ) : SimState :=
  simulateTrades_final data flat_fee percent_fee slippage
    (simulateTrades_loop data signals initial_capital flat_fee percent_fee slippage
      dividend_yield data.length)

/-- `StrategyEngine::simulateTrades`. -/
def simulateTrades (data : List PriceData) (signals : List Int)
    (initial_capital flat_fee percent_fee slippage dividend_yield : ℚ) : List Trade :=
  (simulateTrades_end data signals initial_capital flat_fee percent_fee slippage
    dividend_yield).trades

/-- The local variables of `StrategyEngine::getEquityCurve`. -/
structure EquityState where
  equity_curve : List ℚ
  cash : ℚ
  shares : Int
deriving DecidableEq

/-- Body of the daily loop of `StrategyEngine::getEquityCurve`. -/
def getEquityCurve_step (data : List PriceData) (signals : List Int)
    (flat_fee percent_fee slippage dividend_yield : ℚ) (st : EquityState) (i : Nat) :
    EquityState :=
  let cash : ℚ :=
    if st.shares > 0 ∧ dividend_yield > 0 then
      st.cash + (st.shares : ℚ) * closeAt data i * (dividend_yield / 252)
    else st.cash
  let exec_price : ℚ := closeAt data i
  if signals.getD i 0 = 1 ∧ st.shares = 0 then
    let exec_price : ℚ := exec_price * (1 + slippage)
    let total_fee : ℚ := flat_fee + percent_fee * exec_price
    let buy_shares : Int := static_cast_int ((cash - total_fee) / exec_price)
    if buy_shares > 0 then
      let cash : ℚ := cash - ((buy_shares : ℚ) * exec_price + total_fee)
      let shares : Int := st.shares + buy_shares
      { equity_curve := st.equity_curve ++ [cash + (shares : ℚ) * exec_price],
        cash := cash, shares := shares }
    else
      { equity_curve := st.equity_curve ++ [cash + (st.shares : ℚ) * exec_price],
        cash := cash, shares := st.shares }
  else if signals.getD i 0 = -1 ∧ st.shares > 0 then
    let exec_price : ℚ := exec_price * (1 - slippage)
    let total_fee : ℚ := flat_fee + percent_fee * exec_price
    let cash : ℚ := cash + ((st.shares : ℚ) * exec_price - total_fee)
    { equity_curve := st.equity_curve ++ [cash + ((0 : Int) : ℚ) * exec_price],
      cash := cash, shares := 0 }
  else
    { equity_curve := st.equity_curve ++ [cash + (st.shares : ℚ) * exec_price],
      cash := cash, shares := st.shares }

/-- The locals of `getEquityCurve` after the first `k` iterations of its daily
loop. -/
def getEquityCurve_loop (data : List PriceData) (signals : List Int)
    (initial_capital flat_fee percent_fee slippage dividend_yield : ℚ) (k : Nat) :
    EquityState :=
  (List.range k).foldl
    (getEquityCurve_step data signals flat_fee percent_fee slippage dividend_yield)
    { equity_curve := [], cash := initial_capital, shares := 0 }

/-- `StrategyEngine::getEquityCurve`. -/
def getEquityCurve (data : List PriceData) (signals : List Int)
    (initial_capital flat_fee percent_fee slippage dividend_yield : ℚ) : List ℚ :=
  (getEquityCurve_loop data signals initial_capital flat_fee percent_fee slippage
    dividend_yield data.length).equity_curve

/-! ## The buy-and-hold benchmark -/

/-- Body of the loop of `StrategyEngine::getBenchmarkEquityCurve`; the state is
the curve built so far and `cash`. -/
def getBenchmarkEquityCurve_step (data : List PriceData) (shares : Int) (dividend_yield : ℚ)
    (st : List ℚ × ℚ) (i : Nat) : List ℚ × ℚ :=
  let cash : ℚ :=
    if dividend_yield > 0 then st.2 + (shares : ℚ) * closeAt data i * (dividend_yield / 252)
    else st.2
  (st.1 ++ [cash + (shares : ℚ) * closeAt data i], cash)

/-- `StrategyEngine::getBenchmarkEquityCurve`. -/
def getBenchmarkEquityCurve (data : List PriceData) (initial_capital dividend_yield : ℚ) :
    List ℚ :=
  if data.isEmpty then []
  else
    let shares : Int := static_cast_int (initial_capital / closeAt data 0)
    let cash : ℚ := initial_capital - (shares : ℚ) * closeAt data 0
    ((List.range data.length).foldl
      (getBenchmarkEquityCurve_step data shares dividend_yield) ([], cash)).1

/-! ## The driver (`main.cpp`) -/

/-- The next-day execution shift of `main`: a vector of `signals.size()` zeros
whose entry `i + 1` receives `signals[i]`, for every `i` with
`i + 1 < signals.size()`. -/
def shifted_signals (signals : List Int) : List Int :=
  (List.range (signals.length - 1)).foldl
    (fun shifted i => shifted.set (i + 1) (signals.getD i 0))
    (List.replicate signals.length 0)

/-- The function `calc_total_return` of `main.cpp`. -/
def calc_total_return (initial final : ℚ) : ℚ := (final - initial) / initial

/-- The function `calc_cagr` of `main.cpp`.  The library function `std::pow`
is the parameter `pow`.  The function has a single `return` statement and no
`throw`: it produces a `double` for every argument. -/
def calc_cagr (pow : ℚ → ℚ → ℚ) (initial final years : ℚ) : ℚ :=
  pow (final / initial) (1 / years) - 1

/-- Body of the loop of `calc_max_drawdown`; the state is `(max_dd, peak)`. -/
def calc_max_drawdown_step (st : ℚ × ℚ) (v : ℚ) : ℚ × ℚ :=
  let peak : ℚ := if v > st.2 then v else st.2
  let dd : ℚ := (peak - v) / peak
  let max_dd : ℚ := if dd > st.1 then dd else st.1
  (max_dd, peak)

/-- The function `calc_max_drawdown` of `main.cpp`: `max_dd = 0`,
`peak = equity_curve[0]`, then one pass over the curve. -/
def calc_max_drawdown (equity_curve : List ℚ) : ℚ :=
  (equity_curve.foldl calc_max_drawdown_step (0, equity_curve.getD 0 0)).1

/-- The vector `rets` that the first loop of `calc_sharpe` builds: the daily
simple returns. -/
def calc_sharpe_rets (equity_curve : List ℚ) : List ℚ :=
  (List.range' 1 (equity_curve.length - 1)).foldl
    (fun rets i =>
      rets ++ [(equity_curve.getD i 0 - equity_curve.getD (i - 1) 0)
        / equity_curve.getD (i - 1) 0])
    []

/-- The function `calc_sharpe` of `main.cpp`.  The library function
`std::sqrt` is the parameter `sqrt`. -/
def calc_sharpe (sqrt : ℚ → ℚ) (equity_curve : List ℚ) : ℚ :=
  if equity_curve.length < 2 then 0
  else
    let rets : List ℚ := calc_sharpe_rets equity_curve
    let mean : ℚ := rets.foldl (fun mean r => mean + r) 0
    let mean : ℚ := mean / (rets.length : ℚ)
    let stddev : ℚ := rets.foldl (fun stddev r => stddev + (r - mean) * (r - mean)) 0
    let stddev : ℚ := sqrt (stddev / ((rets.length - 1 : Nat) : ℚ))
    if stddev > 0 then mean / stddev * sqrt 252 else 0

/-- The holding period that `main` hands to `calc_cagr`:
`data.size() / 252.0`. -/
def years (data : List PriceData) : ℚ := (data.length : ℚ) / 252

/-- The control flow of `main` around the CAGR of a curve ending at `final`:
an empty parse result ends the program with exit code 1 before any metric is
computed; otherwise `calc_cagr` is called with `years = data.size() / 252.0`. -/
def main_cagr (pow : ℚ → ℚ → ℚ) (data : List PriceData) (initial final : ℚ) :
    Except Nat ℚ :=
  if data.isEmpty then Except.error 1
  else Except.ok (calc_cagr pow initial final (years data))

/-! ## Reading a moving-average series with a bounds check -/

/-- Body of the loop of `generateCrossoverSignals` with every read of a
moving-average series checked: the reads happen in the order of the source
(`||` stops at the first NaN), and a read at an index that the series does not
have, which the source leaves undefined, ends the run with `none`. -/
def generateCrossoverSignals_checked_step (shortMA longMA : List (Option ℚ))
    (acc : Option (List Int)) (i : Nat) : Option (List Int) :=
  match acc with
  | none => none
  | some signals =>
    match shortMA[i - 1]? with
    | none => none
    | some none => some signals
    | some (some s0) =>
      match longMA[i - 1]? with
      | none => none
      | some none => some signals
      | some (some l0) =>
        match shortMA[i]? with
        | none => none
        | some none => some signals
        | some (some s1) =>
          match longMA[i]? with
          | none => none
          | some none => some signals
          | some (some l1) =>
            if s0 ≤ l0 ∧ s1 > l1 then some (signals.set i 1)
            else if s0 ≥ l0 ∧ s1 < l1 then some (signals.set i (-1))
            else some signals

/-- `StrategyEngine::generateCrossoverSignals` with every read checked:
`some signals` when all reads are in range, `none` when the loop reads past
the end of a moving-average series. -/
def generateCrossoverSignals_checked (data : List PriceData)
    (shortMA longMA : List (Option ℚ)) : Option (List Int) :=
  (List.range' 1 (data.length - 1)).foldl
    (generateCrossoverSignals_checked_step shortMA longMA)
    (some (List.replicate data.length 0))

/-! ## Definitions used to state and prove the theorems -/

/-- Sum of the `len` closes starting at index `s`. -/
def closeSum (data : List PriceData) (len s : Nat) : ℚ :=
  ((List.range len).map (fun j => closeAt data (s + j))).sum

/-- The value the crossover loop leaves at index `i ≥ 1`. -/
def crossoverAt (shortMA longMA : List (Option ℚ)) (i : Nat) : Int :=
  match shortMA.getD (i - 1) none, longMA.getD (i - 1) none,
        shortMA.getD i none, longMA.getD i none with
  | some s0, some l0, some s1, some l1 =>
    if s0 ≤ l0 ∧ s1 > l1 then 1
    else if s0 ≥ l0 ∧ s1 < l1 then -1
    else 0
  | _, _, _, _ => 0

/-- A price row with the given close, for concrete runs. -/
def day (c : ℚ) : PriceData := ⟨"d", c, c, c, c, 0⟩

/-- A four-day sample series with closes 1, 2, 4, 7. -/
def sampleData : List PriceData := [day 1, day 2, day 4, day 7]

/-- A four-day sample series constant at 5. -/
def flatData : List PriceData := [day 5, day 5, day 5, day 5]

/-- Short moving-average series crossing above `sampleLong` at index 2. -/
def sampleShort : List (Option ℚ) := [some 1, some 1, some 3, some 3]

/-- Long moving-average series, constant at 2. -/
def sampleLong : List (Option ℚ) := [some 2, some 2, some 2, some 2]

/-- Cash after the daily dividend accrual (the first statement of the daily
loop body). -/
def accrued (cash : ℚ) (shares : Int) (close dividend_yield : ℚ) : ℚ :=
  if shares > 0 ∧ dividend_yield > 0 then
    cash + (shares : ℚ) * close * (dividend_yield / 252)
  else cash

/-- A trade log made of consecutive (BUY, SELL) pairs, each SELL selling the
share count of the BUY right before it. -/
def pairedLog : List Trade → Bool
  | [] => true
  | [_] => false
  | b :: s :: rest =>
    decide (b.action = "BUY") && decide (s.action = "SELL") &&
      decide (s.shares = b.shares) && decide (0 < b.shares) && pairedLog rest

/-- Shares held after executing a trade log from a flat account: BUYs add
their share count and SELLs remove it. -/
def netPosition (log : List Trade) : Int :=
  (log.map (fun t =>
    if t.action = "BUY" then t.shares else if t.action = "SELL" then -t.shares else 0)).sum

/-- The log and the position agree: flat with a paired log, or long with a
paired log followed by the BUY that opened the position. -/
def LogInv (st : SimState) : Prop :=
  (st.shares = 0 ∧ pairedLog st.trades = true) ∨
  (0 < st.shares ∧ ∃ (pre : List Trade) (b : Trade),
    st.trades = pre ++ [b] ∧ pairedLog pre = true ∧ b.action = "BUY" ∧ b.shares = st.shares)

/-- A two-day series falling from 10 to 1. -/
def fallData : List PriceData := [day 10, day 1]

/-- Dividend cash that `shares` shares collect on the `m` days starting at day
`a`. -/
def dividendSum (data : List PriceData) (shares : Int) (dividend_yield : ℚ) (a m : Nat) : ℚ :=
  ((List.range m).map
    (fun j => (shares : ℚ) * closeAt data (a + j) * (dividend_yield / 252))).sum

/-- Mean of a list of returns. -/
def meanOf (rets : List ℚ) : ℚ := rets.sum / (rets.length : ℚ)

/-- Sample variance of a list of returns, with denominator `length - 1`. -/
def sampleVariance (rets : List ℚ) : ℚ :=
  (rets.map (fun r => (r - meanOf rets) * (r - meanOf rets))).sum
    / ((rets.length - 1 : Nat) : ℚ)

/-- Daily simple returns `r_i = (equity_i - equity_{i-1}) / equity_{i-1}` for
`i = 1 .. n - 1`. -/
def simpleReturns (equity_curve : List ℚ) : List ℚ :=
  (List.range (equity_curve.length - 1)).map
    (fun k => (equity_curve.getD (k + 1) 0 - equity_curve.getD k 0) / equity_curve.getD k 0)

/-- Ten days with the close constant at 100. -/
def tenDays : List PriceData := List.replicate 10 (day 100)

/-- A stand-in for `std::pow` in concrete runs, exact when the exponent is a
natural number. -/
def powNat (x y : ℚ) : ℚ := x ^ (static_cast_int y).toNat

/-- A stand-in for `std::sqrt` in concrete runs, exact on the squares of
rational numbers (`Rat.sqrt` of Mathlib). -/
def sqrtRat (x : ℚ) : ℚ := Rat.sqrt x

/-- What `calc_max_drawdown` knows after the first `k` values of the curve:
`st.2` is the running peak, a value of the curve that bounds the first `k`
values, and `st.1` is the largest drawdown `(v[i] - v[j]) / v[i]` over the
pairs `i ≤ j < k`, a number in `[0, 1)`. -/
def DrawdownInv (equity_curve : List ℚ) (k : Nat) (st : ℚ × ℚ) : Prop :=
  (∃ i, (i < k ∨ i = 0) ∧ st.2 = equity_curve.getD i 0) ∧
  (∀ i, i < k → equity_curve.getD i 0 ≤ st.2) ∧
  (∀ i j, i ≤ j → j < k →
    (equity_curve.getD i 0 - equity_curve.getD j 0) / equity_curve.getD i 0 ≤ st.1) ∧
  (st.1 = 0 ∨ ∃ i j, i ≤ j ∧ j < k ∧
    st.1 = (equity_curve.getD i 0 - equity_curve.getD j 0) / equity_curve.getD i 0) ∧
  0 ≤ st.1 ∧ st.1 < 1

/-- A purchase day at close 100 followed by 252 days at close 200. -/
def doubledData : List PriceData := day 100 :: List.replicate 252 (day 200)

/-- A BUY signal on day 0 and no signal on the 252 days after it. -/
def buyAndHold : List Int := 1 :: List.replicate 252 0

/-- A purchase day and 252 further days, all at close 100. -/
def heldData : List PriceData := day 100 :: List.replicate 252 (day 100)

/-- The CAGR with the guard that the specification asks for: a zero holding
period is an error, any other one gives `(final / initial)^(1 / years) - 1`. -/
def guarded_cagr (pow : ℚ → ℚ → ℚ) (initial final years : ℚ) : Except String ℚ :=
  if years = 0 then Except.error "years == 0"
  else Except.ok (pow (final / initial) (1 / years) - 1)


/-! ## Theorems -/

theorem closeSum_succ (data : List PriceData) (len s : Nat) :
    closeSum data (len + 1) s = closeSum data len s + closeAt data (s + len) := by
  simp [closeSum, List.range_succ]

theorem closeSum_succ_front (data : List PriceData) (len s : Nat) :
    closeSum data (len + 1) s = closeAt data s + closeSum data len (s + 1) := by
  induction len with
  | zero => simp [closeSum, List.range_succ]
  | succ n ih =>
    rw [closeSum_succ, ih, closeSum_succ]
    have : s + 1 + n = s + (n + 1) := by omega
    rw [this]; ring

theorem calculateSMA_loop (data : List PriceData) (w : Nat) (hw : 1 ≤ w) (k : Nat) :
    (List.range k).foldl (calculateSMA_step data w) (0, [])
      = (closeSum data (min k w) (k - w),
         (List.range k).map (fun i =>
            if w - 1 ≤ i then some (closeSum data w (i + 1 - w) / (w : ℚ)) else none)) := by
  induction k with
  | zero => simp [closeSum]
  | succ k ih =>
    rw [List.range_succ, List.foldl_append, ih]
    simp only [List.foldl_cons, List.foldl_nil, calculateSMA_step, List.map_append,
      List.map_cons, List.map_nil]
    by_cases hk : w ≤ k
    · have h1 : w - 1 ≤ k := by omega
      have e1 : min k w = w := by omega
      have e2 : min (k + 1) w = w := by omega
      have e3 : k + 1 - w = (k - w) + 1 := by omega
      have key : closeSum data w (k - w) + closeAt data k - closeAt data (k - w)
          = closeSum data w (k - w + 1) := by
        have a := closeSum_succ data w (k - w)
        have b := closeSum_succ_front data w (k - w)
        have e : k - w + w = k := by omega
        rw [e] at a
        linarith
      simp only [ge_iff_le, hk, h1, if_true, e1, e2, e3, key]
    · have e1 : min k w = k := by omega
      have e2 : min (k + 1) w = k + 1 := by omega
      have e3 : k - w = 0 := by omega
      have e4 : k + 1 - w = 0 := by omega
      have key : closeSum data k 0 + closeAt data k = closeSum data (k + 1) 0 := by
        rw [closeSum_succ]; simp
      by_cases h1 : w - 1 ≤ k
      · have e5 : k + 1 = w := by omega
        simp only [ge_iff_le, hk, h1, if_true, if_false, e1, e2, e3, e4, key]
        rw [e5]
      · simp only [ge_iff_le, hk, h1, if_false, e1, e2, e3, e4, key]

theorem map_close_window (data : List PriceData) (w s : Nat) (h : s + w ≤ data.length) :
    ((data.drop s).take w).map PriceData.close
      = (List.range w).map (fun j => closeAt data (s + j)) := by
  apply List.ext_getElem
  · simp; omega
  · intro n h1 h2
    simp at h1 h2
    simp [closeAt, List.getD_eq_getElem?_getD]
    rw [List.getElem?_eq_getElem (by omega)]
    simp

theorem windowMean_eq (data : List PriceData) (w i : Nat) (h1 : w ≤ i + 1) (h2 : i < data.length) :
    windowMean data w i = closeSum data w (i + 1 - w) / (w : ℚ) := by
  unfold windowMean closeSum
  rw [map_close_window data w (i + 1 - w) (by omega)]

/-- C1: for `1 ≤ w ≤ n`, `calculateSMA w` has length `n`, is undefined (NaN)
at every index `i < w - 1`, and at every index `i ≥ w - 1` equals the
arithmetic mean of `closes[i-w+1..i]` recomputed by brute force. -/
theorem calculateSMA_spec (data : List PriceData) (w : Nat)
    (hw : 1 ≤ w) (hn : w ≤ data.length) :
    (calculateSMA data w).length = data.length ∧
    (∀ i, i < w - 1 → (calculateSMA data w)[i]? = some none) ∧
    (∀ i, w - 1 ≤ i → i < data.length →
      (calculateSMA data w)[i]? = some (some (windowMean data w i))) := by
  have hdef : calculateSMA data w = (List.range data.length).map (fun i =>
      if w - 1 ≤ i then some (closeSum data w (i + 1 - w) / (w : ℚ)) else none) := by
    unfold calculateSMA
    rw [if_neg (by omega), calculateSMA_loop data w hw]
  refine ⟨by simp [hdef], ?_, ?_⟩
  · intro i hi
    rw [hdef, List.getElem?_map, List.getElem?_range (by omega)]
    simp; omega
  · intro i hi hlt
    rw [hdef, List.getElem?_map, List.getElem?_range hlt, windowMean_eq data w i (by omega) hlt]
    simp only [Option.map_some', if_pos hi]


theorem closeAt_const (data : List PriceData) (c : ℚ) (hc : ∀ p ∈ data, p.close = c)
    (i : Nat) (hi : i < data.length) : closeAt data i = c := by
  unfold closeAt
  rw [List.getD_eq_getElem?_getD, List.getElem?_eq_getElem hi]
  exact hc _ (List.getElem_mem hi)

theorem weighted_sum_const (data : List PriceData) (c : ℚ) (w i : Nat)
    (hc : ∀ j, j < w → closeAt data (i - j) = c) (m : Nat) (hm : m ≤ w) :
    (List.range m).foldl
      (fun weighted_sum j => weighted_sum + closeAt data (i - j) * ((w - j : Nat) : ℚ)) 0
      = c * ((m : ℚ) * (w : ℚ) - (m : ℚ) * ((m : ℚ) - 1) / 2) := by
  induction m with
  | zero => simp
  | succ m ih =>
    rw [List.range_succ, List.foldl_append, ih (by omega)]
    simp only [List.foldl_cons, List.foldl_nil]
    rw [hc m (by omega), Nat.cast_sub (by omega)]
    push_cast
    ring

theorem foldl_push_eq_map {α : Type} (f : Nat → α) (k : Nat) :
    (List.range k).foldl (fun acc i => acc ++ [f i]) [] = (List.range k).map f := by
  induction k with
  | zero => simp
  | succ k ih => rw [List.range_succ, List.foldl_append, ih]; simp

theorem calculateWMA_eq_map (data : List PriceData) (w : Nat)
    (hw : 1 ≤ w) (hn : w ≤ data.length) :
    calculateWMA data w = (List.range data.length).map (fun i =>
      if i + 1 < w then none
      else some (calculateWMA_weighted_sum data w i / (((w * (w + 1) : Nat) : ℚ) / 2))) := by
  unfold calculateWMA
  rw [if_neg (by omega), ← foldl_push_eq_map]
  show List.foldl (calculateWMA_step data w (((w * (w + 1) : Nat) : ℚ) / 2)) []
    (List.range data.length) = _
  congr 1
  funext acc i
  simp only [calculateWMA_step]
  split <;> rfl

/-- C2: for a constant closing price `c`, window `w ≥ 1` and `n ≥ w`,
`calculateWMA w` has length `n`, is undefined (NaN) at every index `i < w - 1`
and equals `c` at every index `i ≥ w - 1`; the weights `w, w-1, ..., 1` sum to
the divisor `w (w + 1) / 2`. -/
theorem calculateWMA_const (data : List PriceData) (c : ℚ) (w : Nat)
    (hw : 1 ≤ w) (hn : w ≤ data.length) (hc : ∀ p ∈ data, p.close = c) :
    (calculateWMA data w).length = data.length ∧
    (∀ i, i < w - 1 → (calculateWMA data w)[i]? = some none) ∧
    (∀ i, w - 1 ≤ i → i < data.length → (calculateWMA data w)[i]? = some (some c)) ∧
    ((List.range w).map (fun j => ((w - j : Nat) : ℚ))).sum
      = ((w * (w + 1) : Nat) : ℚ) / 2 := by
  have hdef := calculateWMA_eq_map data w hw hn
  refine ⟨by simp [hdef], ?_, ?_, ?_⟩
  · intro i hi
    rw [hdef, List.getElem?_map, List.getElem?_range (by omega)]
    simp only [Option.map_some', if_pos (show i + 1 < w by omega)]
  · intro i hi hlt
    rw [hdef, List.getElem?_map, List.getElem?_range hlt]
    simp only [Option.map_some', if_neg (show ¬ i + 1 < w by omega)]
    have hws : calculateWMA_weighted_sum data w i
        = c * ((w : ℚ) * (w : ℚ) - (w : ℚ) * ((w : ℚ) - 1) / 2) :=
      weighted_sum_const data c w i
        (fun j _ => closeAt_const data c hc (i - j) (by omega)) w (le_refl w)
    rw [hws]
    have hw0 : (0 : ℚ) < (w : ℚ) := by exact_mod_cast hw
    have hne : (w : ℚ) * ((w : ℚ) + 1) / 2 ≠ 0 := by positivity
    congr 2
    push_cast
    have hX : (w : ℚ) * (w : ℚ) - (w : ℚ) * ((w : ℚ) - 1) / 2
        = (w : ℚ) * ((w : ℚ) + 1) / 2 := by ring
    rw [hX, mul_div_assoc, div_self hne, mul_one]
  · have h : ∀ m, m ≤ w → ((List.range m).map (fun j => ((w - j : Nat) : ℚ))).sum
        = (m : ℚ) * (w : ℚ) - (m : ℚ) * ((m : ℚ) - 1) / 2 := by
      intro m
      induction m with
      | zero => simp
      | succ m ih =>
        intro hm
        rw [List.range_succ, List.map_append, List.sum_append, ih (by omega)]
        simp only [List.map_cons, List.map_nil, List.sum_cons, List.sum_nil]
        rw [Nat.cast_sub (by omega)]
        push_cast
        ring
    rw [h w (le_refl w)]
    push_cast
    ring

/-- C3: for a window `w = 0` (the only non-positive value of the unsigned
window) or `w` larger than the series length, both `calculateSMA w` and
`calculateWMA w` return the empty series. -/
theorem calculateMA_empty (data : List PriceData) (w : Nat)
    (h : w = 0 ∨ data.length < w) :
    calculateSMA data w = [] ∧ calculateWMA data w = [] := by
  constructor
  · unfold calculateSMA; rw [if_pos h]
  · unfold calculateWMA; rw [if_pos h]


theorem crossover_step_length (shortMA longMA : List (Option ℚ)) (sig : List Int) (i : Nat) :
    (generateCrossoverSignals_step shortMA longMA sig i).length = sig.length := by
  unfold generateCrossoverSignals_step
  split
  · split
    · simp
    · split <;> simp
  · rfl

theorem crossover_step_other (shortMA longMA : List (Option ℚ)) (sig : List Int) (i j : Nat)
    (h : j ≠ i) : (generateCrossoverSignals_step shortMA longMA sig i)[j]? = sig[j]? := by
  unfold generateCrossoverSignals_step
  split
  · split
    · rw [List.getElem?_set_ne (Ne.symm h)]
    · split
      · rw [List.getElem?_set_ne (Ne.symm h)]
      · rfl
  · rfl

theorem crossover_step_self (shortMA longMA : List (Option ℚ)) (sig : List Int) (i : Nat)
    (hi : i < sig.length) (h0 : sig[i]? = some 0) :
    (generateCrossoverSignals_step shortMA longMA sig i)[i]?
      = some (crossoverAt shortMA longMA i) := by
  unfold generateCrossoverSignals_step crossoverAt
  split
  · split
    · simp [List.getElem?_set_self hi]
    · split
      · simp [List.getElem?_set_self hi]
      · exact h0
  · exact h0

theorem crossover_loop (shortMA longMA : List (Option ℚ)) (n m : Nat) :
    ((List.range' 1 m).foldl (generateCrossoverSignals_step shortMA longMA)
        (List.replicate n 0)).length = n ∧
    ∀ j, j < n →
      ((List.range' 1 m).foldl (generateCrossoverSignals_step shortMA longMA)
        (List.replicate n 0))[j]?
        = some (if 1 ≤ j ∧ j ≤ m then crossoverAt shortMA longMA j else 0) := by
  induction m with
  | zero =>
    refine ⟨by simp, ?_⟩
    intro j hj
    rw [if_neg (by omega)]
    simp [List.getElem?_replicate, hj]
  | succ m ih =>
    obtain ⟨hlen, hget⟩ := ih
    rw [List.range'_concat, List.foldl_append]
    simp only [List.foldl_cons, List.foldl_nil]
    refine ⟨by rw [crossover_step_length, hlen], ?_⟩
    intro j hj
    by_cases hjm : j = 1 * m + 1
    · subst hjm
      rw [show 1 + 1 * m = 1 * m + 1 by omega]
      rw [crossover_step_self _ _ _ _ (by rw [hlen]; exact hj)]
      · rw [if_pos (by omega)]
      · rw [hget _ hj, if_neg (by omega)]
    · rw [show 1 + 1 * m = 1 * m + 1 by omega]
      rw [crossover_step_other _ _ _ _ _ hjm, hget j hj]
      by_cases hc : 1 ≤ j ∧ j ≤ m
      · rw [if_pos hc, if_pos (by omega)]
      · rw [if_neg hc, if_neg (by omega)]

theorem generateCrossoverSignals_get (data : List PriceData) (shortMA longMA : List (Option ℚ))
    (j : Nat) (hj : j < data.length) :
    (generateCrossoverSignals data shortMA longMA)[j]?
      = some (if 1 ≤ j then crossoverAt shortMA longMA j else 0) := by
  unfold generateCrossoverSignals
  rw [(crossover_loop shortMA longMA data.length (data.length - 1)).2 j hj]
  by_cases h : 1 ≤ j
  · rw [if_pos h, if_pos (by omega)]
  · rw [if_neg h, if_neg (by omega)]

theorem crossoverAt_defined (shortMA longMA : List (Option ℚ)) (i : Nat) (s0 l0 s1 l1 : ℚ)
    (h1 : shortMA[i - 1]? = some (some s0)) (h2 : longMA[i - 1]? = some (some l0))
    (h3 : shortMA[i]? = some (some s1)) (h4 : longMA[i]? = some (some l1)) :
    crossoverAt shortMA longMA i
      = if s0 ≤ l0 ∧ s1 > l1 then 1 else if s0 ≥ l0 ∧ s1 < l1 then -1 else 0 := by
  unfold crossoverAt
  simp only [List.getD_eq_getElem?_getD, h1, h2, h3, h4, Option.getD_some]

theorem crossoverAt_undefined (shortMA longMA : List (Option ℚ)) (i : Nat)
    (h : shortMA.getD (i - 1) none = none ∨ longMA.getD (i - 1) none = none ∨
      shortMA.getD i none = none ∨ longMA.getD i none = none) :
    crossoverAt shortMA longMA i = 0 := by
  unfold crossoverAt
  split
  · rename_i e1 e2 e3 e4
    rcases h with h | h | h | h <;> simp_all
  · rfl

/-- C4: at an index `i ≥ 1` where `short[i-1]`, `long[i-1]`, `short[i]`,
`long[i]` are all defined, `signal[i]` is BUY (`1`) exactly when
`short[i-1] ≤ long[i-1]` and `short[i] > long[i]`, SELL (`-1`) exactly when
`short[i-1] ≥ long[i-1]` and `short[i] < long[i]`, and NONE (`0`) otherwise;
in particular when short is below long at `i-2` and `i-1` and above at `i`,
`signal[i]` is BUY and `signal[i-1]` is NONE. -/
theorem generateCrossoverSignals_spec (data : List PriceData)
    (shortMA longMA : List (Option ℚ))
    (_hs : shortMA.length = data.length) (_hl : longMA.length = data.length)
    (i : Nat) (hi : 1 ≤ i) (hn : i < data.length) (s0 l0 s1 l1 : ℚ)
    (h1 : shortMA[i - 1]? = some (some s0)) (h2 : longMA[i - 1]? = some (some l0))
    (h3 : shortMA[i]? = some (some s1)) (h4 : longMA[i]? = some (some l1)) :
    ((generateCrossoverSignals data shortMA longMA)[i]? = some 1 ↔ (s0 ≤ l0 ∧ s1 > l1)) ∧
    ((generateCrossoverSignals data shortMA longMA)[i]? = some (-1)
      ↔ (s0 ≥ l0 ∧ s1 < l1)) ∧
    (¬ (s0 ≤ l0 ∧ s1 > l1) → ¬ (s0 ≥ l0 ∧ s1 < l1) →
      (generateCrossoverSignals data shortMA longMA)[i]? = some 0) ∧
    (∀ sp lp : ℚ, 2 ≤ i → shortMA[i - 2]? = some (some sp) → longMA[i - 2]? = some (some lp) →
      sp < lp → s0 < l0 → s1 > l1 →
      (generateCrossoverSignals data shortMA longMA)[i]? = some 1 ∧
      (generateCrossoverSignals data shortMA longMA)[i - 1]? = some 0) := by
  have hsig : (generateCrossoverSignals data shortMA longMA)[i]?
      = some (if s0 ≤ l0 ∧ s1 > l1 then 1 else if s0 ≥ l0 ∧ s1 < l1 then -1 else 0) := by
    rw [generateCrossoverSignals_get data shortMA longMA i hn, if_pos hi,
      crossoverAt_defined shortMA longMA i s0 l0 s1 l1 h1 h2 h3 h4]
  refine ⟨?_, ?_, ?_, ?_⟩
  · rw [hsig]
    constructor
    · intro h
      by_contra hg
      rw [if_neg hg] at h
      by_cases hd : s0 ≥ l0 ∧ s1 < l1
      · rw [if_pos hd] at h; simp at h
      · rw [if_neg hd] at h; simp at h
    · intro hg; rw [if_pos hg]
  · rw [hsig]
    constructor
    · intro h
      by_cases hg : s0 ≤ l0 ∧ s1 > l1
      · rw [if_pos hg] at h; simp at h
      · rw [if_neg hg] at h
        by_contra hd
        rw [if_neg hd] at h; simp at h
    · intro hd
      have hg : ¬ (s0 ≤ l0 ∧ s1 > l1) := fun hg => absurd hd.2 (not_lt.mpr (le_of_lt hg.2))
      rw [if_neg hg, if_pos hd]
  · intro hg hd
    rw [hsig, if_neg hg, if_neg hd]
  · intro sp lp hi2 hp1 hp2 hlt0 hlt1 hgt
    constructor
    · rw [hsig, if_pos ⟨le_of_lt hlt1, hgt⟩]
    · have e : i - 1 - 1 = i - 2 := by omega
      rw [generateCrossoverSignals_get data shortMA longMA (i - 1) (by omega),
        if_pos (by omega),
        crossoverAt_defined shortMA longMA (i - 1) sp lp s0 l0
          (by rw [e]; exact hp1) (by rw [e]; exact hp2) h1 h2]
      have hg : ¬ (sp ≤ lp ∧ s0 > l0) := fun h => absurd h.2 (not_lt.mpr (le_of_lt hlt1))
      have hd : ¬ (sp ≥ lp ∧ s0 < l0) := fun h => absurd h.1 (not_le.mpr hlt0)
      rw [if_neg hg, if_neg hd]

/-- C5: `generateCrossoverSignals` returns exactly `n` signals, the signal at
index 0 is NONE, and the signal at index `i` is NONE whenever the short or the
long series is undefined (NaN) at index `i` or at index `i - 1`. -/
theorem generateCrossoverSignals_none (data : List PriceData)
    (shortMA longMA : List (Option ℚ))
    (_hs : shortMA.length = data.length) (_hl : longMA.length = data.length) :
    (generateCrossoverSignals data shortMA longMA).length = data.length ∧
    (0 < data.length → (generateCrossoverSignals data shortMA longMA)[0]? = some 0) ∧
    (∀ i, i < data.length →
      (shortMA[i]? = some none ∨ longMA[i]? = some none ∨
        shortMA[i - 1]? = some none ∨ longMA[i - 1]? = some none) →
      (generateCrossoverSignals data shortMA longMA)[i]? = some 0) := by
  refine ⟨?_, ?_, ?_⟩
  · unfold generateCrossoverSignals
    exact (crossover_loop shortMA longMA data.length (data.length - 1)).1
  · intro h
    rw [generateCrossoverSignals_get data shortMA longMA 0 h, if_neg (by omega)]
  · intro i hi h
    rw [generateCrossoverSignals_get data shortMA longMA i hi]
    by_cases h1 : 1 ≤ i
    · rw [if_pos h1, crossoverAt_undefined]
      simp only [List.getD_eq_getElem?_getD]
      rcases h with h | h | h | h
      · right; right; left; rw [h]; rfl
      · right; right; right; rw [h]; rfl
      · left; rw [h]; rfl
      · right; left; rw [h]; rfl
    · rw [if_neg h1]

/-- Witness of C1 on the closes 1, 2, 4, 7 with window 3. -/
theorem calculateSMA_spec_witness :
    (calculateSMA sampleData 3).length = sampleData.length ∧
    (∀ i, i < 3 - 1 → (calculateSMA sampleData 3)[i]? = some none) ∧
    (∀ i, 3 - 1 ≤ i → i < sampleData.length →
      (calculateSMA sampleData 3)[i]? = some (some (windowMean sampleData 3 i))) :=
  calculateSMA_spec sampleData 3 (by decide) (by decide)

/-- Witness of C2 on a series constant at 5 with window 3. -/
theorem calculateWMA_const_witness :
    (∀ p ∈ flatData, p.close = 5) ∧
    (calculateWMA flatData 3)[2]? = some (some 5) :=
  ⟨by simp [flatData, day],
   (calculateWMA_const flatData 5 3 (by decide) (by decide)
      (by simp [flatData, day])).2.2.1 2 (by decide) (by decide)⟩

/-- Witness of C3: window 0 and window 5 on a four-day series. -/
theorem calculateMA_empty_witness :
    (calculateSMA sampleData 0 = [] ∧ calculateWMA sampleData 0 = []) ∧
    (calculateSMA sampleData 5 = [] ∧ calculateWMA sampleData 5 = []) :=
  ⟨calculateMA_empty sampleData 0 (Or.inl rfl),
   calculateMA_empty sampleData 5 (Or.inr (by decide))⟩

/-- Witness of C4: short crosses above long at index 2. -/
theorem generateCrossoverSignals_spec_witness :
    (generateCrossoverSignals sampleData sampleShort sampleLong)[2]? = some 1 ∧
    (generateCrossoverSignals sampleData sampleShort sampleLong)[2 - 1]? = some 0 :=
  (generateCrossoverSignals_spec sampleData sampleShort sampleLong rfl rfl 2
    (by decide) (by decide) 1 2 3 2 rfl rfl rfl rfl).2.2.2 1 2 (by decide) rfl rfl
    (by norm_num) (by norm_num) (by norm_num)

/-- Witness of C5 with a short series undefined at indices 0 and 1. -/
theorem generateCrossoverSignals_none_witness :
    (generateCrossoverSignals sampleData [none, none, some 3, some 3] sampleLong).length
      = sampleData.length ∧
    (generateCrossoverSignals sampleData [none, none, some 3, some 3] sampleLong)[2]?
      = some 0 :=
  ⟨(generateCrossoverSignals_none sampleData [none, none, some 3, some 3] sampleLong
      rfl rfl).1,
   (generateCrossoverSignals_none sampleData [none, none, some 3, some 3] sampleLong
      rfl rfl).2.2 2 (by decide) (Or.inr (Or.inr (Or.inl rfl)))⟩


/-! ### The conversion to `int` -/

theorem static_cast_int_of_nonneg (x : ℚ) (h : 0 ≤ x) : static_cast_int x = ⌊x⌋ := by
  unfold static_cast_int
  rw [Rat.floor_def, Int.tdiv_eq_ediv (Rat.num_nonneg.mpr h) (by positivity)]

theorem static_cast_int_of_nonpos (x : ℚ) (h : x ≤ 0) : static_cast_int x ≤ 0 := by
  unfold static_cast_int
  have hn : x.num ≤ 0 := Rat.num_nonpos.mpr h
  have h2 : 0 ≤ (-x.num).tdiv (x.den : Int) :=
    Int.tdiv_nonneg (by omega) (by positivity)
  rw [Int.neg_tdiv] at h2
  omega

theorem static_cast_int_nonpos_iff (x : ℚ) : static_cast_int x ≤ 0 ↔ ⌊x⌋ ≤ 0 := by
  by_cases hx : 0 ≤ x
  · rw [static_cast_int_of_nonneg x hx]
  · have hx' : x ≤ 0 := le_of_lt (not_le.mp hx)
    constructor
    · intro _
      have h1 : ⌊x⌋ ≤ ⌊(0 : ℚ)⌋ := Int.floor_le_floor hx'
      simpa using h1
    · intro _
      exact static_cast_int_of_nonpos x hx'

theorem accrued_flat (cash : ℚ) (shares : Int) (close dividend_yield : ℚ) (h : shares = 0) :
    accrued cash shares close dividend_yield = cash := by
  unfold accrued
  rw [if_neg (by omega)]

/-- The four ways a daily step of `simulateTrades` can go. -/
theorem simulateTrades_step_cases (data : List PriceData) (signals : List Int)
    (flat_fee percent_fee slippage dividend_yield : ℚ) (st : SimState) (i : Nat) :
    (signals.getD i 0 = 1 ∧ st.shares = 0 ∧
      0 < static_cast_int ((st.cash - (flat_fee + percent_fee * (closeAt data i * (1 + slippage))))
            / (closeAt data i * (1 + slippage))) ∧
      simulateTrades_step data signals flat_fee percent_fee slippage dividend_yield st i
        = { trades := st.trades ++ [⟨dateAt data i, "BUY", closeAt data i * (1 + slippage),
              static_cast_int ((st.cash - (flat_fee + percent_fee * (closeAt data i * (1 + slippage))))
                / (closeAt data i * (1 + slippage))),
              st.cash - ((static_cast_int ((st.cash - (flat_fee + percent_fee * (closeAt data i * (1 + slippage))))
                / (closeAt data i * (1 + slippage))) : ℚ) * (closeAt data i * (1 + slippage))
                + (flat_fee + percent_fee * (closeAt data i * (1 + slippage)))),
              st.cash - ((static_cast_int ((st.cash - (flat_fee + percent_fee * (closeAt data i * (1 + slippage))))
                / (closeAt data i * (1 + slippage))) : ℚ) * (closeAt data i * (1 + slippage))
                + (flat_fee + percent_fee * (closeAt data i * (1 + slippage))))
                + (static_cast_int ((st.cash - (flat_fee + percent_fee * (closeAt data i * (1 + slippage))))
                / (closeAt data i * (1 + slippage))) : ℚ) * (closeAt data i * (1 + slippage))⟩],
            cash := st.cash - ((static_cast_int ((st.cash - (flat_fee + percent_fee * (closeAt data i * (1 + slippage))))
                / (closeAt data i * (1 + slippage))) : ℚ) * (closeAt data i * (1 + slippage))
                + (flat_fee + percent_fee * (closeAt data i * (1 + slippage)))),
            shares := static_cast_int ((st.cash - (flat_fee + percent_fee * (closeAt data i * (1 + slippage))))
                / (closeAt data i * (1 + slippage))),
            portfolio_value := st.cash - ((static_cast_int ((st.cash - (flat_fee + percent_fee * (closeAt data i * (1 + slippage))))
                / (closeAt data i * (1 + slippage))) : ℚ) * (closeAt data i * (1 + slippage))
                + (flat_fee + percent_fee * (closeAt data i * (1 + slippage))))
                + (static_cast_int ((st.cash - (flat_fee + percent_fee * (closeAt data i * (1 + slippage))))
                / (closeAt data i * (1 + slippage))) : ℚ) * (closeAt data i * (1 + slippage)) }) ∨
    (signals.getD i 0 = 1 ∧ st.shares = 0 ∧
      static_cast_int ((st.cash - (flat_fee + percent_fee * (closeAt data i * (1 + slippage))))
            / (closeAt data i * (1 + slippage))) ≤ 0 ∧
      simulateTrades_step data signals flat_fee percent_fee slippage dividend_yield st i = st) ∨
    (signals.getD i 0 = -1 ∧ 0 < st.shares ∧
      simulateTrades_step data signals flat_fee percent_fee slippage dividend_yield st i
        = { trades := st.trades ++ [⟨dateAt data i, "SELL", closeAt data i * (1 - slippage),
              st.shares,
              accrued st.cash st.shares (closeAt data i) dividend_yield
                + ((st.shares : ℚ) * (closeAt data i * (1 - slippage))
                  - (flat_fee + percent_fee * (closeAt data i * (1 - slippage)))),
              accrued st.cash st.shares (closeAt data i) dividend_yield
                + ((st.shares : ℚ) * (closeAt data i * (1 - slippage))
                  - (flat_fee + percent_fee * (closeAt data i * (1 - slippage))))⟩],
            cash := accrued st.cash st.shares (closeAt data i) dividend_yield
                + ((st.shares : ℚ) * (closeAt data i * (1 - slippage))
                  - (flat_fee + percent_fee * (closeAt data i * (1 - slippage)))),
            shares := 0,
            portfolio_value := accrued st.cash st.shares (closeAt data i) dividend_yield
                + ((st.shares : ℚ) * (closeAt data i * (1 - slippage))
                  - (flat_fee + percent_fee * (closeAt data i * (1 - slippage)))) }) ∨
    (¬ (signals.getD i 0 = 1 ∧ st.shares = 0) ∧ ¬ (signals.getD i 0 = -1 ∧ st.shares > 0) ∧
      simulateTrades_step data signals flat_fee percent_fee slippage dividend_yield st i
        = { trades := st.trades,
            cash := accrued st.cash st.shares (closeAt data i) dividend_yield,
            shares := st.shares,
            portfolio_value := accrued st.cash st.shares (closeAt data i) dividend_yield
              + (st.shares : ℚ) * closeAt data i }) := by
  by_cases h1 : signals.getD i 0 = 1 ∧ st.shares = 0
  · have hnd : ¬ (st.shares > 0 ∧ dividend_yield > 0) := by
      intro h; have := h1.2; omega
    by_cases h2 : 0 < static_cast_int
        ((st.cash - (flat_fee + percent_fee * (closeAt data i * (1 + slippage))))
            / (closeAt data i * (1 + slippage)))
    · left
      refine ⟨h1.1, h1.2, h2, ?_⟩
      simp only [simulateTrades_step, if_pos h1, if_neg hnd, gt_iff_lt, if_pos h2]
      simp only [h1.2, zero_add]
    · right; left
      refine ⟨h1.1, h1.2, not_lt.mp h2, ?_⟩
      simp only [simulateTrades_step, if_pos h1, if_neg hnd, gt_iff_lt, if_neg h2]
  · by_cases h3 : signals.getD i 0 = -1 ∧ st.shares > 0
    · right; right; left
      refine ⟨h3.1, h3.2, ?_⟩
      simp only [simulateTrades_step, if_neg h1, if_pos h3, accrued]
    · right; right; right
      refine ⟨h1, h3, ?_⟩
      simp only [simulateTrades_step, if_neg h1, if_neg h3, accrued]

theorem step_agree (data : List PriceData) (signals : List Int)
    (flat_fee percent_fee slippage dividend_yield : ℚ) (st : SimState) (es : EquityState)
    (i : Nat) (hc : st.cash = es.cash) (hs : st.shares = es.shares) :
    (simulateTrades_step data signals flat_fee percent_fee slippage dividend_yield st i).cash
      = (getEquityCurve_step data signals flat_fee percent_fee slippage dividend_yield
          es i).cash ∧
    (simulateTrades_step data signals flat_fee percent_fee slippage dividend_yield st i).shares
      = (getEquityCurve_step data signals flat_fee percent_fee slippage dividend_yield
          es i).shares := by
  simp only [simulateTrades_step, getEquityCurve_step, hc, hs]
  split_ifs <;> exact ⟨rfl, rfl⟩

/-- C9: economic no-ops change nothing.  In a daily step where the signal is
BUY while `shares > 0`, or SELL while `shares = 0`, or BUY while flat with an
affordable share count `⌊(cash - total_fee) / exec_price⌋ ≤ 0`, no trade is
appended, `shares` is unchanged, and `cash` is unchanged apart from that
day's dividend accrual `shares * close * (dividend_yield / 252)` (added only
when `shares > 0` and `dividend_yield > 0`).  It holds for the step of
`simulateTrades` and for the step of `getEquityCurve`. -/
theorem noop_step_unchanged (data : List PriceData) (signals : List Int)
    (flat_fee percent_fee slippage dividend_yield : ℚ) (i : Nat)
    (cash : ℚ) (shares : Int)
    (hcase : (signals.getD i 0 = 1 ∧ 0 < shares) ∨
      (signals.getD i 0 = -1 ∧ shares = 0) ∨
      (signals.getD i 0 = 1 ∧ shares = 0 ∧
        ⌊(cash - (flat_fee + percent_fee * (closeAt data i * (1 + slippage))))
          / (closeAt data i * (1 + slippage))⌋ ≤ 0)) :
    (∀ (trades : List Trade) (pv : ℚ),
      (simulateTrades_step data signals flat_fee percent_fee slippage dividend_yield
        ⟨trades, cash, shares, pv⟩ i).trades = trades ∧
      (simulateTrades_step data signals flat_fee percent_fee slippage dividend_yield
        ⟨trades, cash, shares, pv⟩ i).shares = shares ∧
      (simulateTrades_step data signals flat_fee percent_fee slippage dividend_yield
        ⟨trades, cash, shares, pv⟩ i).cash
        = cash + (if 0 < shares ∧ 0 < dividend_yield then
            (shares : ℚ) * closeAt data i * (dividend_yield / 252) else 0)) ∧
    (∀ curve : List ℚ,
      (getEquityCurve_step data signals flat_fee percent_fee slippage dividend_yield
        ⟨curve, cash, shares⟩ i).shares = shares ∧
      (getEquityCurve_step data signals flat_fee percent_fee slippage dividend_yield
        ⟨curve, cash, shares⟩ i).cash
        = cash + (if 0 < shares ∧ 0 < dividend_yield then
            (shares : ℚ) * closeAt data i * (dividend_yield / 252) else 0)) := by
  have hsim : ∀ (trades : List Trade) (pv : ℚ),
      (simulateTrades_step data signals flat_fee percent_fee slippage dividend_yield
        ⟨trades, cash, shares, pv⟩ i).trades = trades ∧
      (simulateTrades_step data signals flat_fee percent_fee slippage dividend_yield
        ⟨trades, cash, shares, pv⟩ i).shares = shares ∧
      (simulateTrades_step data signals flat_fee percent_fee slippage dividend_yield
        ⟨trades, cash, shares, pv⟩ i).cash
        = cash + (if 0 < shares ∧ 0 < dividend_yield then
            (shares : ℚ) * closeAt data i * (dividend_yield / 252) else 0) := by
    intro trades pv
    have hacc : accrued cash shares (closeAt data i) dividend_yield
        = cash + (if 0 < shares ∧ 0 < dividend_yield then
            (shares : ℚ) * closeAt data i * (dividend_yield / 252) else 0) := by
      unfold accrued
      by_cases hd : shares > 0 ∧ dividend_yield > 0
      · rw [if_pos hd, if_pos hd]
      · rw [if_neg hd, if_neg hd, add_zero]
    rcases simulateTrades_step_cases data signals flat_fee percent_fee slippage
      dividend_yield ⟨trades, cash, shares, pv⟩ i
      with ⟨h1, h2, hk, _⟩ | ⟨_, h2, _, heq⟩ | ⟨h1, h2, _⟩ | ⟨_, _, heq⟩
    · exfalso
      simp only at h1 h2 hk
      rcases hcase with ⟨_, hp⟩ | ⟨hm, _⟩ | ⟨_, _, hfl⟩
      · omega
      · rw [h1] at hm; omega
      · have := (static_cast_int_nonpos_iff _).mpr hfl
        omega
    · rw [heq]
      simp only at h2
      refine ⟨rfl, rfl, ?_⟩
      rw [← hacc, accrued_flat _ _ _ _ h2]
    · exfalso
      simp only at h1 h2
      rcases hcase with ⟨hb, _⟩ | ⟨_, hz⟩ | ⟨hb, _, _⟩
      · rw [h1] at hb; omega
      · omega
      · rw [h1] at hb; omega
    · rw [heq]
      exact ⟨rfl, rfl, hacc⟩
  refine ⟨hsim, ?_⟩
  intro curve
  obtain ⟨hc, hs⟩ := step_agree data signals flat_fee percent_fee slippage dividend_yield
    ⟨[], cash, shares, 0⟩ ⟨curve, cash, shares⟩ i rfl rfl
  obtain ⟨_, h2, h3⟩ := hsim [] 0
  exact ⟨hs ▸ h2, hc ▸ h3⟩

/-! ### The loops -/

theorem simulateTrades_loop_succ (data : List PriceData) (signals : List Int)
    (initial_capital flat_fee percent_fee slippage dividend_yield : ℚ) (k : Nat) :
    simulateTrades_loop data signals initial_capital flat_fee percent_fee slippage
        dividend_yield (k + 1)
      = simulateTrades_step data signals flat_fee percent_fee slippage dividend_yield
          (simulateTrades_loop data signals initial_capital flat_fee percent_fee slippage
            dividend_yield k) k := by
  unfold simulateTrades_loop
  rw [List.range_succ, List.foldl_append]
  rfl

theorem getEquityCurve_loop_succ (data : List PriceData) (signals : List Int)
    (initial_capital flat_fee percent_fee slippage dividend_yield : ℚ) (k : Nat) :
    getEquityCurve_loop data signals initial_capital flat_fee percent_fee slippage
        dividend_yield (k + 1)
      = getEquityCurve_step data signals flat_fee percent_fee slippage dividend_yield
          (getEquityCurve_loop data signals initial_capital flat_fee percent_fee slippage
            dividend_yield k) k := by
  unfold getEquityCurve_loop
  rw [List.range_succ, List.foldl_append]
  rfl

theorem loops_agree (data : List PriceData) (signals : List Int)
    (initial_capital flat_fee percent_fee slippage dividend_yield : ℚ) (k : Nat) :
    (simulateTrades_loop data signals initial_capital flat_fee percent_fee slippage
        dividend_yield k).cash
      = (getEquityCurve_loop data signals initial_capital flat_fee percent_fee slippage
        dividend_yield k).cash ∧
    (simulateTrades_loop data signals initial_capital flat_fee percent_fee slippage
        dividend_yield k).shares
      = (getEquityCurve_loop data signals initial_capital flat_fee percent_fee slippage
        dividend_yield k).shares := by
  induction k with
  | zero => exact ⟨rfl, rfl⟩
  | succ k ih =>
    rw [simulateTrades_loop_succ, getEquityCurve_loop_succ]
    exact step_agree _ _ _ _ _ _ _ _ _ ih.1 ih.2

theorem getEquityCurve_step_length (data : List PriceData) (signals : List Int)
    (flat_fee percent_fee slippage dividend_yield : ℚ) (es : EquityState) (i : Nat) :
    (getEquityCurve_step data signals flat_fee percent_fee slippage dividend_yield
      es i).equity_curve.length = es.equity_curve.length + 1 := by
  simp only [getEquityCurve_step]
  split_ifs <;> simp

theorem getEquityCurve_loop_length (data : List PriceData) (signals : List Int)
    (initial_capital flat_fee percent_fee slippage dividend_yield : ℚ) (k : Nat) :
    (getEquityCurve_loop data signals initial_capital flat_fee percent_fee slippage
      dividend_yield k).equity_curve.length = k := by
  induction k with
  | zero => rfl
  | succ k ih => rw [getEquityCurve_loop_succ, getEquityCurve_step_length, ih]

theorem benchmark_loop_length (data : List PriceData) (shares : Int) (dividend_yield : ℚ)
    (init : List ℚ × ℚ) (k : Nat) :
    ((List.range k).foldl (getBenchmarkEquityCurve_step data shares dividend_yield)
      init).1.length = init.1.length + k := by
  induction k with
  | zero => simp
  | succ k ih =>
    rw [List.range_succ, List.foldl_append]
    simp only [List.foldl_cons, List.foldl_nil, getBenchmarkEquityCurve_step,
      List.length_append, List.length_singleton, ih]
    omega

/-- C10: for a price series of length `n` and a signal sequence of length `n`,
`getEquityCurve` returns exactly `n` values and `getBenchmarkEquityCurve`
returns exactly `n` values, which is the empty curve for the empty series. -/
theorem equity_curves_length (data : List PriceData) (signals : List Int)
    (initial_capital flat_fee percent_fee slippage dividend_yield : ℚ)
    (_hlen : signals.length = data.length) :
    (getEquityCurve data signals initial_capital flat_fee percent_fee slippage
      dividend_yield).length = data.length ∧
    (getBenchmarkEquityCurve data initial_capital dividend_yield).length = data.length ∧
    getBenchmarkEquityCurve [] initial_capital dividend_yield = [] := by
  refine ⟨?_, ?_, rfl⟩
  · unfold getEquityCurve
    exact getEquityCurve_loop_length _ _ _ _ _ _ _ _
  · unfold getBenchmarkEquityCurve
    cases data with
    | nil => rfl
    | cons a l =>
      rw [if_neg (by simp)]
      simp only [benchmark_loop_length]
      simp

/-! ### The shape of the trade log -/

theorem pairedLog_append (l1 l2 : List Trade) (h : pairedLog l1 = true) :
    pairedLog (l1 ++ l2) = pairedLog l2 := by
  induction l1 using pairedLog.induct with
  | case1 => rfl
  | case2 t => simp [pairedLog] at h
  | case3 b s rest ih =>
    simp only [pairedLog, Bool.and_eq_true, decide_eq_true_eq] at h
    obtain ⟨⟨⟨⟨h1, h2⟩, h3⟩, h4⟩, h5⟩ := h
    have e : b :: s :: rest ++ l2 = b :: s :: (rest ++ l2) := rfl
    rw [e]
    simp only [pairedLog, h1, h2, h3, h4, ih h5, decide_True, Bool.true_and]

theorem pairedLog_action (l : List Trade) (h : pairedLog l = true) :
    ∀ (j : Nat) (t : Trade), l[j]? = some t →
      t.action = if j % 2 = 0 then "BUY" else "SELL" := by
  induction l using pairedLog.induct with
  | case1 => intro j t ht; simp at ht
  | case2 t => simp [pairedLog] at h
  | case3 b s rest ih =>
    simp only [pairedLog, Bool.and_eq_true, decide_eq_true_eq] at h
    obtain ⟨⟨⟨⟨h1, h2⟩, _⟩, _⟩, h5⟩ := h
    intro j t ht
    match j with
    | 0 =>
      simp only [List.getElem?_cons_zero, Option.some.injEq] at ht
      subst ht
      simpa using h1
    | 1 =>
      simp only [List.getElem?_cons_succ, List.getElem?_cons_zero, Option.some.injEq] at ht
      subst ht
      simpa using h2
    | j + 2 =>
      simp only [List.getElem?_cons_succ] at ht
      have := ih h5 j t ht
      rw [this]
      have e : (j + 2) % 2 = j % 2 := by omega
      rw [e]

theorem pairedLog_shares (l : List Trade) (h : pairedLog l = true) :
    ∀ (j : Nat) (b s : Trade), l[2 * j]? = some b → l[2 * j + 1]? = some s →
      s.shares = b.shares ∧ 0 < b.shares := by
  induction l using pairedLog.induct with
  | case1 => intro j b s hb; simp at hb
  | case2 t => simp [pairedLog] at h
  | case3 b0 s0 rest ih =>
    simp only [pairedLog, Bool.and_eq_true, decide_eq_true_eq] at h
    obtain ⟨⟨⟨⟨_, _⟩, h3⟩, h4⟩, h5⟩ := h
    intro j b s hb hs
    match j with
    | 0 =>
      simp only [Nat.mul_zero, List.getElem?_cons_zero, Option.some.injEq] at hb
      simp only [Nat.mul_zero, Nat.zero_add, List.getElem?_cons_succ, List.getElem?_cons_zero,
        Option.some.injEq] at hs
      subst hb; subst hs
      exact ⟨h3, h4⟩
    | j + 1 =>
      have e1 : 2 * (j + 1) = 2 * j + 1 + 1 := by omega
      have e2 : 2 * (j + 1) + 1 = 2 * j + 1 + 1 + 1 := by omega
      rw [e1] at hb
      rw [e2] at hs
      simp only [List.getElem?_cons_succ] at hb hs
      exact ih h5 j b s hb hs

theorem pairedLog_even (l : List Trade) (h : pairedLog l = true) : Even l.length := by
  induction l using pairedLog.induct with
  | case1 => simp
  | case2 t => simp [pairedLog] at h
  | case3 b s rest ih =>
    simp only [pairedLog, Bool.and_eq_true, decide_eq_true_eq] at h
    obtain ⟨_, h5⟩ := h
    obtain ⟨m, hm⟩ := ih h5
    exact ⟨m + 1, by simp only [List.length_cons, hm]; omega⟩

theorem pairedLog_net (l : List Trade) (h : pairedLog l = true) : netPosition l = 0 := by
  induction l using pairedLog.induct with
  | case1 => rfl
  | case2 t => simp [pairedLog] at h
  | case3 b s rest ih =>
    simp only [pairedLog, Bool.and_eq_true, decide_eq_true_eq] at h
    obtain ⟨⟨⟨⟨h1, h2⟩, h3⟩, _⟩, h5⟩ := h
    have hr := ih h5
    unfold netPosition at hr ⊢
    simp only [List.map_cons, List.sum_cons, hr, h1, h2, h3, if_true]
    simp

theorem pairedLog_last (l : List Trade) (h : pairedLog l = true) :
    ∀ t : Trade, l.getLast? = some t → t.action = "SELL" := by
  intro t ht
  have hne : l ≠ [] := by
    intro hnil; rw [hnil] at ht; simp at ht
  have hlen : 0 < l.length := List.length_pos.mpr hne
  obtain ⟨m, hm⟩ := pairedLog_even l h
  have hget : l[l.length - 1]? = some t := by
    rw [← ht, List.getLast?_eq_getElem?]
  have := pairedLog_action l h (l.length - 1) t hget
  rw [this, if_neg (by omega)]

theorem pairedLog_close (pre : List Trade) (b s : Trade) (hpre : pairedLog pre = true)
    (hb : b.action = "BUY") (hs : s.action = "SELL") (hsh : s.shares = b.shares)
    (hpos : 0 < b.shares) : pairedLog (pre ++ [b] ++ [s]) = true := by
  rw [List.append_assoc, pairedLog_append pre _ hpre]
  simp [pairedLog, hb, hs, hsh, hpos]

theorem logInv_step (data : List PriceData) (signals : List Int)
    (flat_fee percent_fee slippage dividend_yield : ℚ) (st : SimState) (i : Nat)
    (h : LogInv st) :
    LogInv (simulateTrades_step data signals flat_fee percent_fee slippage dividend_yield
      st i) := by
  rcases simulateTrades_step_cases data signals flat_fee percent_fee slippage
    dividend_yield st i with ⟨_, hflat, hk, heq⟩ | ⟨_, _, _, heq⟩ | ⟨_, hpos, heq⟩ | ⟨_, _, heq⟩
  · rw [heq]
    rcases h with ⟨_, hp⟩ | ⟨hp, _⟩
    · right
      exact ⟨hk, st.trades, _, rfl, hp, rfl, rfl⟩
    · omega
  · rw [heq]; exact h
  · rw [heq]
    rcases h with ⟨hz, _⟩ | ⟨_, pre, b, htr, hpre, hb, hsh⟩
    · omega
    · left
      refine ⟨rfl, ?_⟩
      show pairedLog (st.trades ++ [_]) = true
      rw [htr]
      exact pairedLog_close pre b _ hpre hb rfl hsh.symm (by rw [hsh]; exact hpos)
  · rw [heq]
    exact h

theorem logInv_loop (data : List PriceData) (signals : List Int)
    (initial_capital flat_fee percent_fee slippage dividend_yield : ℚ) (k : Nat) :
    LogInv (simulateTrades_loop data signals initial_capital flat_fee percent_fee slippage
      dividend_yield k) := by
  induction k with
  | zero => left; exact ⟨rfl, rfl⟩
  | succ k ih => rw [simulateTrades_loop_succ]; exact logInv_step _ _ _ _ _ _ _ _ ih

theorem pairedLog_final (data : List PriceData) (flat_fee percent_fee slippage : ℚ)
    (st : SimState) (h : LogInv st) :
    pairedLog (simulateTrades_final data flat_fee percent_fee slippage st).trades = true := by
  unfold simulateTrades_final
  rcases h with ⟨hz, hp⟩ | ⟨hpos, pre, b, htr, hpre, hb, hsh⟩
  · rw [if_neg (by omega)]; exact hp
  · rw [if_pos hpos]
    show pairedLog (st.trades ++ [_]) = true
    rw [htr]
    exact pairedLog_close pre b _ hpre hb rfl hsh.symm (by rw [hsh]; exact hpos)

/-- C7: shares held is `≥ 0` after every daily step, and the trade log of
`simulateTrades` strictly alternates BUY, SELL, BUY, SELL, ...: the trade at
an even position is a BUY and at an odd position a SELL, a non-empty log
starts with a BUY and ends with a SELL, the log has even length, every SELL
sells exactly the (positive) share count of the BUY right before it, and the
position left by the log is zero shares: when the daily loop ends with
`shares > 0` the forced final liquidation appends a SELL of exactly those
shares. -/
theorem trade_log_alternates (data : List PriceData) (signals : List Int)
    (initial_capital flat_fee percent_fee slippage dividend_yield : ℚ)
    (_hclose : ∀ p ∈ data, 0 < p.close) (_hlen : signals.length = data.length) :
    (∀ k, k ≤ data.length →
      0 ≤ (simulateTrades_loop data signals initial_capital flat_fee percent_fee slippage
        dividend_yield k).shares) ∧
    (∀ (j : Nat) (t : Trade),
      (simulateTrades data signals initial_capital flat_fee percent_fee slippage
        dividend_yield)[j]? = some t →
      t.action = if j % 2 = 0 then "BUY" else "SELL") ∧
    (∀ t : Trade,
      (simulateTrades data signals initial_capital flat_fee percent_fee slippage
        dividend_yield).head? = some t → t.action = "BUY") ∧
    (∀ t : Trade,
      (simulateTrades data signals initial_capital flat_fee percent_fee slippage
        dividend_yield).getLast? = some t → t.action = "SELL") ∧
    Even (simulateTrades data signals initial_capital flat_fee percent_fee slippage
      dividend_yield).length ∧
    (∀ (j : Nat) (b s : Trade),
      (simulateTrades data signals initial_capital flat_fee percent_fee slippage
        dividend_yield)[2 * j]? = some b →
      (simulateTrades data signals initial_capital flat_fee percent_fee slippage
        dividend_yield)[2 * j + 1]? = some s →
      s.shares = b.shares ∧ 0 < b.shares) ∧
    netPosition (simulateTrades data signals initial_capital flat_fee percent_fee slippage
      dividend_yield) = 0 ∧
    (0 < (simulateTrades_loop data signals initial_capital flat_fee percent_fee slippage
        dividend_yield data.length).shares →
      ∃ t : Trade,
        (simulateTrades data signals initial_capital flat_fee percent_fee slippage
          dividend_yield).getLast? = some t ∧
        t.action = "SELL" ∧
        t.shares = (simulateTrades_loop data signals initial_capital flat_fee percent_fee
          slippage dividend_yield data.length).shares) := by
  have hp : pairedLog (simulateTrades data signals initial_capital flat_fee percent_fee
      slippage dividend_yield) = true := by
    unfold simulateTrades simulateTrades_end
    exact pairedLog_final _ _ _ _ _ (logInv_loop _ _ _ _ _ _ _ _)
  refine ⟨?_, pairedLog_action _ hp, ?_, pairedLog_last _ hp, pairedLog_even _ hp,
    pairedLog_shares _ hp, pairedLog_net _ hp, ?_⟩
  · intro k _
    rcases logInv_loop data signals initial_capital flat_fee percent_fee slippage
      dividend_yield k with ⟨hz, _⟩ | ⟨hpos, _⟩
    · omega
    · omega
  · intro t ht
    have h0 := pairedLog_action _ hp 0 t (by rw [← ht, List.head?_eq_getElem?])
    simpa using h0
  · intro hpos
    unfold simulateTrades simulateTrades_end simulateTrades_final
    rw [if_pos hpos]
    exact ⟨_, List.getLast?_concat _, rfl, rfl⟩

/-! ### Cash -/

/-- Witness of C7 on the closes 1, 2, 4, 7 with a BUY, a SELL and a second BUY
that the final liquidation closes. -/
theorem trade_log_alternates_witness :
    Even (simulateTrades sampleData [1, 0, -1, 1] 100 0 0 0 0).length ∧
    netPosition (simulateTrades sampleData [1, 0, -1, 1] 100 0 0 0 0) = 0 :=
  ⟨(trade_log_alternates sampleData [1, 0, -1, 1] 100 0 0 0 0
      (by simp [sampleData, day]) rfl).2.2.2.2.1,
   (trade_log_alternates sampleData [1, 0, -1, 1] 100 0 0 0 0
      (by simp [sampleData, day]) rfl).2.2.2.2.2.2.1⟩

/-- Witness of C9: a BUY signal while holding 5 shares leaves the log and the
shares as they are. -/
theorem noop_step_unchanged_witness :
    (simulateTrades_step sampleData [1, 0, 0, 0] 0 0 0 (1 / 10) ⟨[], 100, 5, 0⟩ 0).trades = [] ∧
    (simulateTrades_step sampleData [1, 0, 0, 0] 0 0 0 (1 / 10) ⟨[], 100, 5, 0⟩ 0).shares = 5 :=
  ⟨((noop_step_unchanged sampleData [1, 0, 0, 0] 0 0 0 (1 / 10) 0 100 5
      (Or.inl ⟨rfl, by decide⟩)).1 [] 0).1,
   ((noop_step_unchanged sampleData [1, 0, 0, 0] 0 0 0 (1 / 10) 0 100 5
      (Or.inl ⟨rfl, by decide⟩)).1 [] 0).2.1⟩

/-- Witness of C10 on a four-day series. -/
theorem equity_curves_length_witness :
    (getEquityCurve sampleData [1, 0, -1, 0] 100 0 0 0 0).length = sampleData.length ∧
    (getBenchmarkEquityCurve sampleData 100 0).length = sampleData.length ∧
    getBenchmarkEquityCurve [] 100 0 = [] :=
  equity_curves_length sampleData [1, 0, -1, 0] 100 0 0 0 0 rfl

/-! ### The daily step of `getEquityCurve` -/

/-- The four ways a daily step of `getEquityCurve` can go. -/
theorem getEquityCurve_step_cases (data : List PriceData) (signals : List Int)
    (flat_fee percent_fee slippage dividend_yield : ℚ) (es : EquityState) (i : Nat) :
    (signals.getD i 0 = 1 ∧ es.shares = 0 ∧
      0 < static_cast_int ((es.cash - (flat_fee + percent_fee * (closeAt data i * (1 + slippage))))
            / (closeAt data i * (1 + slippage))) ∧
      getEquityCurve_step data signals flat_fee percent_fee slippage dividend_yield es i
        = { equity_curve := es.equity_curve ++
              [es.cash - ((static_cast_int ((es.cash - (flat_fee + percent_fee * (closeAt data i * (1 + slippage))))
                / (closeAt data i * (1 + slippage))) : ℚ) * (closeAt data i * (1 + slippage))
                + (flat_fee + percent_fee * (closeAt data i * (1 + slippage))))
                + (static_cast_int ((es.cash - (flat_fee + percent_fee * (closeAt data i * (1 + slippage))))
                / (closeAt data i * (1 + slippage))) : ℚ) * (closeAt data i * (1 + slippage))],
            cash := es.cash - ((static_cast_int ((es.cash - (flat_fee + percent_fee * (closeAt data i * (1 + slippage))))
                / (closeAt data i * (1 + slippage))) : ℚ) * (closeAt data i * (1 + slippage))
                + (flat_fee + percent_fee * (closeAt data i * (1 + slippage)))),
            shares := static_cast_int ((es.cash - (flat_fee + percent_fee * (closeAt data i * (1 + slippage))))
                / (closeAt data i * (1 + slippage))) }) ∨
    (signals.getD i 0 = 1 ∧ es.shares = 0 ∧
      static_cast_int ((es.cash - (flat_fee + percent_fee * (closeAt data i * (1 + slippage))))
            / (closeAt data i * (1 + slippage))) ≤ 0 ∧
      getEquityCurve_step data signals flat_fee percent_fee slippage dividend_yield es i
        = { equity_curve := es.equity_curve ++ [es.cash], cash := es.cash,
            shares := es.shares }) ∨
    (signals.getD i 0 = -1 ∧ 0 < es.shares ∧
      getEquityCurve_step data signals flat_fee percent_fee slippage dividend_yield es i
        = { equity_curve := es.equity_curve ++
              [accrued es.cash es.shares (closeAt data i) dividend_yield
                + ((es.shares : ℚ) * (closeAt data i * (1 - slippage))
                  - (flat_fee + percent_fee * (closeAt data i * (1 - slippage))))],
            cash := accrued es.cash es.shares (closeAt data i) dividend_yield
                + ((es.shares : ℚ) * (closeAt data i * (1 - slippage))
                  - (flat_fee + percent_fee * (closeAt data i * (1 - slippage)))),
            shares := 0 }) ∨
    (¬ (signals.getD i 0 = 1 ∧ es.shares = 0) ∧ ¬ (signals.getD i 0 = -1 ∧ es.shares > 0) ∧
      getEquityCurve_step data signals flat_fee percent_fee slippage dividend_yield es i
        = { equity_curve := es.equity_curve ++
              [accrued es.cash es.shares (closeAt data i) dividend_yield
                + (es.shares : ℚ) * closeAt data i],
            cash := accrued es.cash es.shares (closeAt data i) dividend_yield,
            shares := es.shares }) := by
  by_cases h1 : signals.getD i 0 = 1 ∧ es.shares = 0
  · have hnd : ¬ (es.shares > 0 ∧ dividend_yield > 0) := by
      intro h; have := h1.2; omega
    by_cases h2 : 0 < static_cast_int
        ((es.cash - (flat_fee + percent_fee * (closeAt data i * (1 + slippage))))
            / (closeAt data i * (1 + slippage)))
    · left
      refine ⟨h1.1, h1.2, h2, ?_⟩
      simp only [getEquityCurve_step, if_pos h1, if_neg hnd, gt_iff_lt, if_pos h2]
      simp only [h1.2, zero_add]
    · right; left
      refine ⟨h1.1, h1.2, not_lt.mp h2, ?_⟩
      simp only [getEquityCurve_step, if_pos h1, if_neg hnd, gt_iff_lt, if_neg h2]
      simp only [h1.2, Int.cast_zero, zero_mul, add_zero]
  · by_cases h3 : signals.getD i 0 = -1 ∧ es.shares > 0
    · right; right; left
      refine ⟨h3.1, h3.2, ?_⟩
      simp only [getEquityCurve_step, if_neg h1, if_pos h3, accrued, Int.cast_zero, zero_mul,
        add_zero]
    · right; right; right
      refine ⟨h1, h3, ?_⟩
      simp only [getEquityCurve_step, if_neg h1, if_neg h3, accrued]

/-- A flat account that sees no BUY signal stays as it is: no trade, no
shares, the same cash. -/
theorem simulateTrades_step_flat (data : List PriceData) (signals : List Int)
    (flat_fee percent_fee slippage dividend_yield : ℚ) (st : SimState) (i : Nat)
    (hflat : st.shares = 0) (hsig : signals.getD i 0 ≠ 1) :
    (simulateTrades_step data signals flat_fee percent_fee slippage dividend_yield
      st i).trades = st.trades ∧
    (simulateTrades_step data signals flat_fee percent_fee slippage dividend_yield
      st i).shares = 0 ∧
    (simulateTrades_step data signals flat_fee percent_fee slippage dividend_yield
      st i).cash = st.cash := by
  rcases simulateTrades_step_cases data signals flat_fee percent_fee slippage
    dividend_yield st i with ⟨h, _⟩ | ⟨h, _⟩ | ⟨_, hpos, _⟩ | ⟨_, _, heq⟩
  · exact absurd h hsig
  · exact absurd h hsig
  · omega
  · rw [heq]
    exact ⟨rfl, hflat, accrued_flat _ _ _ _ hflat⟩

theorem getEquityCurve_step_flat (data : List PriceData) (signals : List Int)
    (flat_fee percent_fee slippage dividend_yield : ℚ) (es : EquityState) (i : Nat)
    (hflat : es.shares = 0) (hsig : signals.getD i 0 ≠ 1) :
    getEquityCurve_step data signals flat_fee percent_fee slippage dividend_yield es i
      = { equity_curve := es.equity_curve ++ [es.cash], cash := es.cash, shares := 0 } := by
  rcases getEquityCurve_step_cases data signals flat_fee percent_fee slippage
    dividend_yield es i with ⟨h, _⟩ | ⟨h, _⟩ | ⟨_, hpos, _⟩ | ⟨_, _, heq⟩
  · exact absurd h hsig
  · exact absurd h hsig
  · omega
  · rw [heq, accrued_flat _ _ _ _ hflat, hflat]
    simp

/-- Without a BUY signal on the first `k` days the account stays flat: the
log is empty, no share is held and the cash is the initial capital. -/
theorem simulateTrades_loop_flat (data : List PriceData) (signals : List Int)
    (initial_capital flat_fee percent_fee slippage dividend_yield : ℚ) (k : Nat)
    (hsig : ∀ i, i < k → signals.getD i 0 ≠ 1) :
    (simulateTrades_loop data signals initial_capital flat_fee percent_fee slippage
      dividend_yield k).trades = [] ∧
    (simulateTrades_loop data signals initial_capital flat_fee percent_fee slippage
      dividend_yield k).shares = 0 ∧
    (simulateTrades_loop data signals initial_capital flat_fee percent_fee slippage
      dividend_yield k).cash = initial_capital := by
  induction k with
  | zero => exact ⟨rfl, rfl, rfl⟩
  | succ k ih =>
    obtain ⟨h1, h2, h3⟩ := ih (fun i hi => hsig i (by omega))
    rw [simulateTrades_loop_succ]
    obtain ⟨g1, g2, g3⟩ := simulateTrades_step_flat data signals flat_fee percent_fee slippage
      dividend_yield _ k h2 (hsig k (by omega))
    exact ⟨g1.trans h1, g2, g3.trans h3⟩

theorem getEquityCurve_loop_flat (data : List PriceData) (signals : List Int)
    (initial_capital flat_fee percent_fee slippage dividend_yield : ℚ) (k : Nat)
    (hsig : ∀ i, i < k → signals.getD i 0 ≠ 1) :
    getEquityCurve_loop data signals initial_capital flat_fee percent_fee slippage
      dividend_yield k
      = { equity_curve := List.replicate k initial_capital, cash := initial_capital,
          shares := 0 } := by
  induction k with
  | zero => rfl
  | succ k ih =>
    rw [getEquityCurve_loop_succ, ih (fun i hi => hsig i (by omega)),
      getEquityCurve_step_flat _ _ _ _ _ _ _ _ rfl (hsig k (by omega))]
    simp only [List.replicate_succ', List.append_eq]

/-- With no BUY signal at all the simulation ends with an empty trade log and
an equity curve flat at the initial capital. -/
theorem no_buy_signal_flat (data : List PriceData) (signals : List Int)
    (initial_capital flat_fee percent_fee slippage dividend_yield : ℚ)
    (hsig : ∀ i, i < data.length → signals.getD i 0 ≠ 1) :
    simulateTrades data signals initial_capital flat_fee percent_fee slippage
      dividend_yield = [] ∧
    getEquityCurve data signals initial_capital flat_fee percent_fee slippage
      dividend_yield = List.replicate data.length initial_capital := by
  constructor
  · obtain ⟨h1, h2, _⟩ := simulateTrades_loop_flat data signals initial_capital flat_fee
      percent_fee slippage dividend_yield data.length hsig
    unfold simulateTrades simulateTrades_end simulateTrades_final
    rw [if_neg (by omega)]
    exact h1
  · unfold getEquityCurve
    rw [getEquityCurve_loop_flat _ _ _ _ _ _ _ _ hsig]


/-! ### The next-day shift of the driver -/

theorem shifted_loop (signals : List Int) (n m : Nat) :
    ((List.range m).foldl (fun shifted i => shifted.set (i + 1) (signals.getD i 0))
        (List.replicate n 0)).length = n ∧
    ∀ j, j < n →
      ((List.range m).foldl (fun shifted i => shifted.set (i + 1) (signals.getD i 0))
        (List.replicate n 0))[j]?
        = some (if 1 ≤ j ∧ j ≤ m then signals.getD (j - 1) 0 else 0) := by
  induction m with
  | zero =>
    refine ⟨by simp, ?_⟩
    intro j hj
    rw [if_neg (by omega)]
    simp [List.getElem?_replicate, hj]
  | succ m ih =>
    obtain ⟨hlen, hget⟩ := ih
    rw [List.range_succ, List.foldl_append]
    simp only [List.foldl_cons, List.foldl_nil]
    refine ⟨by rw [List.length_set, hlen], ?_⟩
    intro j hj
    by_cases hjm : j = m + 1
    · subst hjm
      rw [List.getElem?_set_self (by rw [hlen]; exact hj), if_pos (by omega)]
      simp
    · rw [List.getElem?_set_ne (Ne.symm hjm), hget j hj]
      by_cases hc : 1 ≤ j ∧ j ≤ m
      · rw [if_pos hc, if_pos (by omega)]
      · rw [if_neg hc, if_neg (by omega)]

theorem shifted_signals_get (signals : List Int) (j : Nat) (hj : j < signals.length) :
    (shifted_signals signals)[j]? = some (if 1 ≤ j then signals.getD (j - 1) 0 else 0) := by
  unfold shifted_signals
  rw [(shifted_loop signals signals.length (signals.length - 1)).2 j hj]
  by_cases h : 1 ≤ j
  · rw [if_pos h, if_pos (by omega)]
  · rw [if_neg h, if_neg (by omega)]

theorem shifted_signals_length (signals : List Int) :
    (shifted_signals signals).length = signals.length := by
  unfold shifted_signals
  exact (shifted_loop signals signals.length (signals.length - 1)).1

theorem shifted_signals_getD_start (signals : List Int) (h0 : signals.getD 0 0 = 0)
    (j : Nat) (hj : j ≤ 1) : (shifted_signals signals).getD j 0 = 0 := by
  by_cases hlt : j < signals.length
  · rw [List.getD_eq_getElem?_getD, shifted_signals_get signals j hlt]
    by_cases h : 1 ≤ j
    · have : j - 1 = 0 := by omega
      rw [if_pos h, this, h0]; rfl
    · rw [if_neg h]; rfl
  · have h1 : (shifted_signals signals)[j]? = none := by
      rw [List.getElem?_eq_none_iff, shifted_signals_length]; omega
    rw [List.getD_eq_getElem?_getD, h1]
    rfl

/-- C14: the driver applies a one-day execution lag.  The shifted sequence has
the length of the signal sequence, is NONE (`0`) at index 0, and at every index
`i + 1 < n` equals `signals[i]` (so the signal of the last day is never acted
on); with `signal[0]` NONE, as `generateCrossoverSignals` returns it, the
simulator fed with the shifted sequence executes no trade on day 0 or day 1. -/
theorem shifted_signals_spec (signals : List Int) :
    (shifted_signals signals).length = signals.length ∧
    (0 < signals.length → (shifted_signals signals)[0]? = some 0) ∧
    (∀ i, i + 1 < signals.length → (shifted_signals signals)[i + 1]? = signals[i]?) ∧
    (signals.getD 0 0 = 0 →
      ∀ (data : List PriceData)
        (initial_capital flat_fee percent_fee slippage dividend_yield : ℚ) (k : Nat),
        k ≤ 2 →
        (simulateTrades_loop data (shifted_signals signals) initial_capital flat_fee
          percent_fee slippage dividend_yield k).trades = [] ∧
        (simulateTrades_loop data (shifted_signals signals) initial_capital flat_fee
          percent_fee slippage dividend_yield k).shares = 0) := by
  refine ⟨shifted_signals_length signals, ?_, ?_, ?_⟩
  · intro h
    rw [shifted_signals_get signals 0 h, if_neg (by omega)]
  · intro i hi
    rw [shifted_signals_get signals (i + 1) hi, if_pos (by omega)]
    have : i + 1 - 1 = i := by omega
    rw [this, List.getD_eq_getElem?_getD, List.getElem?_eq_getElem (by omega)]
    rfl
  · intro h0 data initial_capital flat_fee percent_fee slippage dividend_yield k hk
    have hflat := simulateTrades_loop_flat data (shifted_signals signals) initial_capital
      flat_fee percent_fee slippage dividend_yield k
      (fun i hi => by
        rw [shifted_signals_getD_start signals h0 i (by omega)]
        decide)
    exact ⟨hflat.1, hflat.2.1⟩

/-- Witness of C14 on the signals of the crossing sample series. -/
theorem shifted_signals_spec_witness :
    (shifted_signals (generateCrossoverSignals sampleData sampleShort sampleLong)).length
      = (generateCrossoverSignals sampleData sampleShort sampleLong).length ∧
    (simulateTrades_loop sampleData
      (shifted_signals (generateCrossoverSignals sampleData sampleShort sampleLong))
      100 0 0 0 0 2).trades = [] :=
  ⟨(shifted_signals_spec (generateCrossoverSignals sampleData sampleShort sampleLong)).1,
   ((shifted_signals_spec (generateCrossoverSignals sampleData sampleShort sampleLong)).2.2.2
      (by
        rw [List.getD_eq_getElem?_getD,
          generateCrossoverSignals_get sampleData sampleShort sampleLong 0 (by decide)]
        rfl)
      sampleData 100 0 0 0 0 2 (le_refl 2)).1⟩


/-! ### `simulateTrades` and `getEquityCurve` replay the same account -/

/-- When a daily step of `simulateTrades` appends a trade, the step of
`getEquityCurve` from the same cash and shares appends the portfolio value
that the trade records. -/
theorem step_trade_value (data : List PriceData) (signals : List Int)
    (flat_fee percent_fee slippage dividend_yield : ℚ) (st : SimState) (es : EquityState)
    (i : Nat) (hc : st.cash = es.cash) (hs : st.shares = es.shares) (t : Trade)
    (ht : (simulateTrades_step data signals flat_fee percent_fee slippage dividend_yield
      st i).trades = st.trades ++ [t]) :
    (getEquityCurve_step data signals flat_fee percent_fee slippage dividend_yield
      es i).equity_curve = es.equity_curve ++ [t.portfolio_value] := by
  rcases simulateTrades_step_cases data signals flat_fee percent_fee slippage
    dividend_yield st i with ⟨a1, a2, a3, heq⟩ | ⟨_, _, _, heq⟩ | ⟨c1, c2, heq⟩ | ⟨_, _, heq⟩
  · rw [heq] at ht
    have ht' := List.append_cancel_left ht
    simp only [List.cons.injEq, and_true] at ht'
    subst ht'
    rw [hc] at a3
    rw [hs] at a2
    rcases getEquityCurve_step_cases data signals flat_fee percent_fee slippage
      dividend_yield es i with ⟨_, _, _, geq⟩ | ⟨_, _, b3, _⟩ | ⟨_, b2, _⟩ | ⟨b1, _, _⟩
    · rw [geq, hc]
    · omega
    · omega
    · exact absurd ⟨a1, a2⟩ b1
  · rw [heq] at ht
    have := congrArg List.length ht
    simp at this
  · rw [heq] at ht
    have ht' := List.append_cancel_left ht
    simp only [List.cons.injEq, and_true] at ht'
    subst ht'
    rw [hs] at c2
    rcases getEquityCurve_step_cases data signals flat_fee percent_fee slippage
      dividend_yield es i with ⟨b1, _, _, _⟩ | ⟨b1, _, _, _⟩ | ⟨_, _, geq⟩ | ⟨_, b2, _⟩
    · rw [c1] at b1; omega
    · rw [c1] at b1; omega
    · rw [geq, hc, hs]
    · exact absurd ⟨c1, c2⟩ b2
  · rw [heq] at ht
    have := congrArg List.length ht
    simp at this

theorem getEquityCurve_step_prefix (data : List PriceData) (signals : List Int)
    (flat_fee percent_fee slippage dividend_yield : ℚ) (es : EquityState) (i : Nat) :
    ∃ v : ℚ, (getEquityCurve_step data signals flat_fee percent_fee slippage dividend_yield
      es i).equity_curve = es.equity_curve ++ [v] := by
  rcases getEquityCurve_step_cases data signals flat_fee percent_fee slippage
    dividend_yield es i with ⟨_, _, _, geq⟩ | ⟨_, _, _, geq⟩ | ⟨_, _, geq⟩ | ⟨_, _, geq⟩ <;>
  exact ⟨_, by rw [geq]⟩

/-- The curve after `k` days is a prefix of the curve after `k + m` days. -/
theorem getEquityCurve_loop_prefix (data : List PriceData) (signals : List Int)
    (initial_capital flat_fee percent_fee slippage dividend_yield : ℚ) (k m : Nat) :
    ∃ rest : List ℚ,
      (getEquityCurve_loop data signals initial_capital flat_fee percent_fee slippage
        dividend_yield (k + m)).equity_curve
      = (getEquityCurve_loop data signals initial_capital flat_fee percent_fee slippage
        dividend_yield k).equity_curve ++ rest := by
  induction m with
  | zero => exact ⟨[], by simp⟩
  | succ m ih =>
    obtain ⟨rest, hrest⟩ := ih
    obtain ⟨v, hv⟩ := getEquityCurve_step_prefix data signals flat_fee percent_fee slippage
      dividend_yield (getEquityCurve_loop data signals initial_capital flat_fee percent_fee
        slippage dividend_yield (k + m)) (k + m)
    refine ⟨rest ++ [v], ?_⟩
    rw [← Nat.add_assoc, getEquityCurve_loop_succ, hv, hrest, List.append_assoc]

/-- C19: `simulateTrades` and `getEquityCurve` replay the same account state
machine: after each day the cash and the shares are identical in both, and a
trade that `simulateTrades` appends on day `i` of the daily replay (any trade
but the forced final liquidation) records a `portfolio_value` equal to
`getEquityCurve(...)[i]` for the same arguments. -/
theorem simulateTrades_getEquityCurve_agree (data : List PriceData) (signals : List Int)
    (initial_capital flat_fee percent_fee slippage dividend_yield : ℚ)
    (_hlen : signals.length = data.length) :
    (∀ k, k ≤ data.length →
      (simulateTrades_loop data signals initial_capital flat_fee percent_fee slippage
          dividend_yield k).cash
        = (getEquityCurve_loop data signals initial_capital flat_fee percent_fee slippage
          dividend_yield k).cash ∧
      (simulateTrades_loop data signals initial_capital flat_fee percent_fee slippage
          dividend_yield k).shares
        = (getEquityCurve_loop data signals initial_capital flat_fee percent_fee slippage
          dividend_yield k).shares) ∧
    (∀ (i : Nat) (t : Trade), i < data.length →
      (simulateTrades_loop data signals initial_capital flat_fee percent_fee slippage
          dividend_yield (i + 1)).trades
        = (simulateTrades_loop data signals initial_capital flat_fee percent_fee slippage
          dividend_yield i).trades ++ [t] →
      (getEquityCurve data signals initial_capital flat_fee percent_fee slippage
        dividend_yield)[i]? = some t.portfolio_value) := by
  constructor
  · intro k _
    exact loops_agree data signals initial_capital flat_fee percent_fee slippage
      dividend_yield k
  · intro i t hi ht
    rw [simulateTrades_loop_succ] at ht
    obtain ⟨hc, hs⟩ := loops_agree data signals initial_capital flat_fee percent_fee slippage
      dividend_yield i
    have hv := step_trade_value data signals flat_fee percent_fee slippage dividend_yield
      _ _ i hc hs t ht
    rw [← getEquityCurve_loop_succ] at hv
    obtain ⟨rest, hrest⟩ := getEquityCurve_loop_prefix data signals initial_capital flat_fee
      percent_fee slippage dividend_yield (i + 1) (data.length - (i + 1))
    have e : i + 1 + (data.length - (i + 1)) = data.length := by omega
    rw [e] at hrest
    unfold getEquityCurve
    have hlen := getEquityCurve_loop_length data signals initial_capital flat_fee
      percent_fee slippage dividend_yield i
    rw [hrest, hv, List.append_assoc, List.getElem?_append_right (by omega), hlen]
    simp

/-- Witness of C19: the BUY of day 0 on the closes 1, 2, 4, 7 records the
value `getEquityCurve` holds at index 0. -/
theorem simulateTrades_getEquityCurve_agree_witness :
    (getEquityCurve sampleData [1, 0, -1, 0] 100 0 0 0 0)[0]? = some 100 :=
  (simulateTrades_getEquityCurve_agree sampleData [1, 0, -1, 0] 100 0 0 0 0 rfl).2 0
    ⟨"d", "BUY", 1, 100, 0, 100⟩ (by decide)
    (by norm_num [simulateTrades_loop, simulateTrades_step, simulateTrades_init, sampleData,
      day, closeAt, dateAt, List.range, List.range.loop, static_cast_int])


/-! ### Maximum drawdown -/

theorem calc_max_drawdown_monotone_fold (l : List ℚ) (p : ℚ)
    (hchain : List.Chain (· ≤ ·) p l) :
    (l.foldl calc_max_drawdown_step (0, p)).1 = 0 := by
  induction l generalizing p with
  | nil => rfl
  | cons v rest ih =>
    rw [List.chain_cons] at hchain
    obtain ⟨hpv, hrest⟩ := hchain
    have hstep : calc_max_drawdown_step (0, p) v = (0, v) := by
      simp only [calc_max_drawdown_step]
      by_cases h : v > p
      · simp only [if_pos h, sub_self, zero_div, gt_iff_lt, lt_self_iff_false, if_false]
      · have hpv' : p = v := le_antisymm hpv (not_lt.mp h)
        simp only [if_neg h, hpv', sub_self, zero_div, gt_iff_lt, lt_self_iff_false,
          if_false]
    rw [List.foldl_cons, hstep]
    exact ih v hrest

/-- C15: `calc_max_drawdown` returns exactly 0 for every non-empty equity
curve that is monotonically non-decreasing, in particular for every
monotonically increasing one, and exactly 0.5 for the curve `[100, 50, 100]`. -/
theorem calc_max_drawdown_monotone :
    (∀ equity_curve : List ℚ, equity_curve ≠ [] →
      List.Chain' (· ≤ ·) equity_curve → calc_max_drawdown equity_curve = 0) ∧
    (∀ equity_curve : List ℚ, equity_curve ≠ [] →
      List.Chain' (· < ·) equity_curve → calc_max_drawdown equity_curve = 0) ∧
    calc_max_drawdown [100, 50, 100] = 1 / 2 := by
  have hmono : ∀ equity_curve : List ℚ, equity_curve ≠ [] →
      List.Chain' (· ≤ ·) equity_curve → calc_max_drawdown equity_curve = 0 := by
    intro equity_curve hne hchain
    cases equity_curve with
    | nil => exact absurd rfl hne
    | cons a l =>
      unfold calc_max_drawdown
      have hc : List.Chain (· ≤ ·) a (a :: l) :=
        List.Chain.cons (le_refl a) hchain
      exact calc_max_drawdown_monotone_fold (a :: l) a hc
  refine ⟨hmono, ?_, ?_⟩
  · intro equity_curve hne hchain
    exact hmono equity_curve hne (List.Chain'.imp (fun _ _ h => le_of_lt h) hchain)
  · norm_num [calc_max_drawdown, calc_max_drawdown_step]

/-- Witness of C15 on the rising curve 100, 100, 120, 150. -/
theorem calc_max_drawdown_monotone_witness :
    calc_max_drawdown [100, 100, 120, 150] = 0 :=
  calc_max_drawdown_monotone.1 [100, 100, 120, 150] (by simp)
    (by simp [List.Chain']; norm_num)


theorem getD_pos (equity_curve : List ℚ) (hpos : ∀ x ∈ equity_curve, 0 < x) (i : Nat)
    (hi : i < equity_curve.length) : 0 < equity_curve.getD i 0 := by
  rw [List.getD_eq_getElem?_getD, List.getElem?_eq_getElem hi]
  exact hpos _ (List.getElem_mem hi)

theorem drawdown_le_of_le (a b x : ℚ) (ha : 0 < a) (hab : a ≤ b) (hx : 0 < x) :
    (a - x) / a ≤ (b - x) / b := by
  have hb : 0 < b := lt_of_lt_of_le ha hab
  rw [div_le_div_iff₀ ha hb]
  nlinarith

theorem drawdownInv_step (equity_curve : List ℚ) (hpos : ∀ x ∈ equity_curve, 0 < x)
    (k : Nat) (hk : k < equity_curve.length) (st : ℚ × ℚ)
    (h : DrawdownInv equity_curve k st) :
    DrawdownInv equity_curve (k + 1)
      (calc_max_drawdown_step st (equity_curve.getD k 0)) := by
  obtain ⟨⟨ip, hip, hpk⟩, hmax, hub, hatt, h0, h1⟩ := h
  have hx : 0 < equity_curve.getD k 0 := getD_pos equity_curve hpos k hk
  have hpkpos : 0 < st.2 := by
    rw [hpk]
    exact getD_pos equity_curve hpos ip (by omega)
  simp only [calc_max_drawdown_step]
  by_cases hgt : equity_curve.getD k 0 > st.2
  · -- a new peak: the drawdown of the day is 0
    simp only [if_pos hgt, sub_self, zero_div]
    have hmd : (if (0 : ℚ) > st.1 then (0 : ℚ) else st.1) = st.1 := by
      rw [if_neg (not_lt.mpr h0)]
    rw [hmd]
    refine ⟨⟨k, Or.inl (by omega), rfl⟩, ?_, ?_, ?_, h0, h1⟩
    · intro i hi
      by_cases hik : i < k
      · exact le_trans (hmax i hik) (le_of_lt hgt)
      · have : i = k := by omega
        rw [this]
    · intro i j hij hj
      by_cases hjk : j < k
      · exact hub i j hij hjk
      · have hjk' : j = k := by omega
        subst hjk'
        by_cases hik : i < j
        · have hi0 : 0 < equity_curve.getD i 0 := getD_pos equity_curve hpos i (by omega)
          have hle : equity_curve.getD i 0 ≤ equity_curve.getD j 0 :=
            le_trans (hmax i hik) (le_of_lt hgt)
          have : (equity_curve.getD i 0 - equity_curve.getD j 0) / equity_curve.getD i 0 ≤ 0 :=
            div_nonpos_of_nonpos_of_nonneg (by linarith) (le_of_lt hi0)
          linarith
        · have : i = j := by omega
          rw [this, sub_self, zero_div]
          exact h0
    · rcases hatt with hz | ⟨i, j, hij, hj, he⟩
      · exact Or.inl hz
      · exact Or.inr ⟨i, j, hij, by omega, he⟩
  · -- the peak stays
    have hle : equity_curve.getD k 0 ≤ st.2 := not_lt.mp hgt
    simp only [if_neg hgt]
    have hdd0 : 0 ≤ (st.2 - equity_curve.getD k 0) / st.2 :=
      div_nonneg (by linarith) (le_of_lt hpkpos)
    have hdd1 : (st.2 - equity_curve.getD k 0) / st.2 < 1 := by
      rw [div_lt_one hpkpos]; linarith
    have hipk : ip ≤ k := by omega
    have hbound : ∀ i, i ≤ k →
        (equity_curve.getD i 0 - equity_curve.getD k 0) / equity_curve.getD i 0
          ≤ (st.2 - equity_curve.getD k 0) / st.2 := by
      intro i hi
      have hi0 : 0 < equity_curve.getD i 0 := getD_pos equity_curve hpos i (by omega)
      have hile : equity_curve.getD i 0 ≤ st.2 := by
        by_cases hik : i < k
        · exact hmax i hik
        · have : i = k := by omega
          rw [this]; exact hle
      exact drawdown_le_of_le _ _ _ hi0 hile hx
    by_cases hnew : (st.2 - equity_curve.getD k 0) / st.2 > st.1
    · simp only [if_pos hnew]
      refine ⟨⟨ip, Or.inl (by omega), hpk⟩, ?_, ?_, ?_, hdd0, hdd1⟩
      · intro i hi
        by_cases hik : i < k
        · exact hmax i hik
        · have : i = k := by omega
          rw [this]; exact hle
      · intro i j hij hj
        by_cases hjk : j < k
        · exact le_trans (hub i j hij hjk) (le_of_lt hnew)
        · have hjk' : j = k := by omega
          subst hjk'
          exact hbound i hij
      · right
        refine ⟨ip, k, hipk, by omega, ?_⟩
        rw [hpk]
    · simp only [if_neg hnew]
      refine ⟨⟨ip, Or.inl (by omega), hpk⟩, ?_, ?_, ?_, h0, h1⟩
      · intro i hi
        by_cases hik : i < k
        · exact hmax i hik
        · have : i = k := by omega
          rw [this]; exact hle
      · intro i j hij hj
        by_cases hjk : j < k
        · exact hub i j hij hjk
        · have hjk' : j = k := by omega
          subst hjk'
          exact le_trans (hbound i hij) (not_lt.mp hnew)
      · rcases hatt with hz | ⟨i, j, hij, hj, he⟩
        · exact Or.inl hz
        · exact Or.inr ⟨i, j, hij, by omega, he⟩

theorem drawdownInv_prefix (equity_curve : List ℚ) (hpos : ∀ x ∈ equity_curve, 0 < x)
    (k : Nat) (hk : k ≤ equity_curve.length) :
    DrawdownInv equity_curve k
      ((equity_curve.take k).foldl calc_max_drawdown_step (0, equity_curve.getD 0 0)) := by
  induction k with
  | zero =>
    refine ⟨⟨0, Or.inr rfl, rfl⟩, ?_, ?_, Or.inl rfl, le_refl _, by norm_num⟩
    · intro i hi; omega
    · intro i j _ hj; omega
  | succ k ih =>
    have hlt : k < equity_curve.length := by omega
    have htake : equity_curve.take (k + 1) = equity_curve.take k ++ [equity_curve.getD k 0] := by
      rw [List.take_succ, List.getElem?_eq_getElem hlt, List.getD_eq_getElem?_getD,
        List.getElem?_eq_getElem hlt]
      rfl
    rw [htake, List.foldl_append]
    exact drawdownInv_step equity_curve hpos k hlt _ (ih (by omega))

/-- C20: for a non-empty equity curve `v` with strictly positive values the
running-peak loop of `calc_max_drawdown` returns the classical maximum
drawdown: its result bounds `(v[i] - v[j]) / v[i]` for every pair `i ≤ j`,
is attained by one such pair, and lies in `[0, 1)`. -/
theorem calc_max_drawdown_classical (equity_curve : List ℚ) (hne : equity_curve ≠ [])
    (hpos : ∀ x ∈ equity_curve, 0 < x) :
    (∀ i j, i ≤ j → j < equity_curve.length →
      (equity_curve.getD i 0 - equity_curve.getD j 0) / equity_curve.getD i 0
        ≤ calc_max_drawdown equity_curve) ∧
    (∃ i j, i ≤ j ∧ j < equity_curve.length ∧
      calc_max_drawdown equity_curve
        = (equity_curve.getD i 0 - equity_curve.getD j 0) / equity_curve.getD i 0) ∧
    0 ≤ calc_max_drawdown equity_curve ∧ calc_max_drawdown equity_curve < 1 := by
  have hinv := drawdownInv_prefix equity_curve hpos equity_curve.length (le_refl _)
  rw [List.take_length] at hinv
  obtain ⟨_, _, hub, hatt, h0, h1⟩ := hinv
  have hlen : 0 < equity_curve.length := List.length_pos.mpr hne
  refine ⟨hub, ?_, h0, h1⟩
  rcases hatt with hz | ⟨i, j, hij, hj, he⟩
  · exact ⟨0, 0, le_refl 0, hlen, by
      unfold calc_max_drawdown
      rw [hz, sub_self, zero_div]⟩
  · exact ⟨i, j, hij, hj, he⟩

/-- Witness of C20 on the curve 100, 120, 90, 130, 65: the drawdown of the
pair (3, 4) is bounded by the result. -/
theorem calc_max_drawdown_classical_witness :
    (([100, 120, 90, 130, 65] : List ℚ).getD 3 0 - ([100, 120, 90, 130, 65] : List ℚ).getD 4 0)
        / ([100, 120, 90, 130, 65] : List ℚ).getD 3 0
      ≤ calc_max_drawdown [100, 120, 90, 130, 65] ∧
    calc_max_drawdown [100, 120, 90, 130, 65] < 1 :=
  ⟨(calc_max_drawdown_classical [100, 120, 90, 130, 65] (by simp)
      (by intro x hx; simp at hx; rcases hx with h | h | h | h | h <;> rw [h] <;> norm_num)).1
      3 4 (by decide) (by decide),
   (calc_max_drawdown_classical [100, 120, 90, 130, 65] (by simp)
      (by intro x hx; simp at hx; rcases hx with h | h | h | h | h <;> rw [h] <;> norm_num)).2.2.2⟩


/-! ### The buy-and-hold benchmark -/

theorem dividendSum_succ (data : List PriceData) (shares : Int) (dividend_yield : ℚ)
    (a m : Nat) :
    dividendSum data shares dividend_yield a (m + 1)
      = dividendSum data shares dividend_yield a m
        + (shares : ℚ) * closeAt data (a + m) * (dividend_yield / 252) := by
  simp [dividendSum, List.range_succ]

/-- C17, as the code has it: on every executed trade the fee charged is
`flat_fee + percent_fee * exec_price`, the percentage being taken of the
execution price of one share whatever the number of shares traded.  A trade
appended by a daily step moves cash by the traded value and that fee, and so
does the forced final liquidation. -/
theorem fee_charged (data : List PriceData) (signals : List Int)
    (flat_fee percent_fee slippage dividend_yield : ℚ) (st : SimState) (i : Nat) (t : Trade)
    (ht : (simulateTrades_step data signals flat_fee percent_fee slippage dividend_yield
      st i).trades = st.trades ++ [t]) :
    (t.action = "BUY" →
      t.price = closeAt data i * (1 + slippage) ∧
      st.cash - (t.shares : ℚ) * t.price
        - (simulateTrades_step data signals flat_fee percent_fee slippage dividend_yield
            st i).cash = flat_fee + percent_fee * t.price) ∧
    (t.action = "SELL" →
      t.price = closeAt data i * (1 - slippage) ∧
      accrued st.cash st.shares (closeAt data i) dividend_yield + (t.shares : ℚ) * t.price
        - (simulateTrades_step data signals flat_fee percent_fee slippage dividend_yield
            st i).cash = flat_fee + percent_fee * t.price) ∧
    (0 < st.shares →
      st.cash + (st.shares : ℚ) * ((data.getLastD default).close * (1 - slippage))
        - (simulateTrades_final data flat_fee percent_fee slippage st).cash
        = flat_fee + percent_fee * ((data.getLastD default).close * (1 - slippage))) := by
  refine ⟨?_, ?_, ?_⟩
  · intro hact
    rcases simulateTrades_step_cases data signals flat_fee percent_fee slippage
      dividend_yield st i with ⟨_, _, _, heq⟩ | ⟨_, _, _, heq⟩ | ⟨_, _, heq⟩ | ⟨_, _, heq⟩
    · rw [heq] at ht ⊢
      have ht' := List.append_cancel_left ht
      simp only [List.cons.injEq, and_true] at ht'
      subst ht'
      refine ⟨rfl, ?_⟩
      simp only
      ring
    · rw [heq] at ht
      have := congrArg List.length ht
      simp at this
    · rw [heq] at ht
      have ht' := List.append_cancel_left ht
      simp only [List.cons.injEq, and_true] at ht'
      subst ht'
      simp at hact
    · rw [heq] at ht
      have := congrArg List.length ht
      simp at this
  · intro hact
    rcases simulateTrades_step_cases data signals flat_fee percent_fee slippage
      dividend_yield st i with ⟨_, _, _, heq⟩ | ⟨_, _, _, heq⟩ | ⟨_, _, heq⟩ | ⟨_, _, heq⟩
    · rw [heq] at ht
      have ht' := List.append_cancel_left ht
      simp only [List.cons.injEq, and_true] at ht'
      subst ht'
      simp at hact
    · rw [heq] at ht
      have := congrArg List.length ht
      simp at this
    · rw [heq] at ht ⊢
      have ht' := List.append_cancel_left ht
      simp only [List.cons.injEq, and_true] at ht'
      subst ht'
      refine ⟨rfl, ?_⟩
      simp only
      ring
    · rw [heq] at ht
      have := congrArg List.length ht
      simp at this
  · intro hpos
    unfold simulateTrades_final
    rw [if_pos hpos]
    simp only
    ring

/-- C17 fails as stated: with capital 101, close 10 and `percent_fee = 1/10`
the BUY of day 0 fills 10 shares and charges a fee of 1, which is
`percent_fee * exec_price`; `percent_fee` times the executed notional of 100
would be 10. -/
theorem fee_not_on_notional_counterexample :
    (simulateTrades_loop fallData [1, -1] 101 0 (1 / 10) 0 0 1).shares = 10 ∧
    (simulateTrades_loop fallData [1, -1] 101 0 (1 / 10) 0 0 1).trades
      = [⟨"d", "BUY", 10, 10, 0, 100⟩] ∧
    (101 : ℚ) - 10 * 10 - (simulateTrades_loop fallData [1, -1] 101 0 (1 / 10) 0 0 1).cash = 1 ∧
    (0 : ℚ) + 1 / 10 * (10 * 10) = 10 := by
  refine ⟨?_, ?_, ?_, by norm_num⟩
  · norm_num [simulateTrades_loop, simulateTrades_step, simulateTrades_init, fallData, day,
      closeAt, dateAt, List.range, List.range.loop, static_cast_int]
  · norm_num [simulateTrades_loop, simulateTrades_step, simulateTrades_init, fallData, day,
      closeAt, dateAt, List.range, List.range.loop, static_cast_int]
  · norm_num [simulateTrades_loop, simulateTrades_step, simulateTrades_init, fallData, day,
      closeAt, dateAt, List.range, List.range.loop, static_cast_int]

/-- Witness of the amended C17 on the BUY of 10 shares at close 10. -/
theorem fee_charged_witness :
    (101 : ℚ) - ((10 : Int) : ℚ) * 10
        - (simulateTrades_step fallData [1, -1] 0 (1 / 10) 0 0 ⟨[], 101, 0, 101⟩ 0).cash
      = 0 + 1 / 10 * 10 :=
  ((fee_charged fallData [1, -1] 0 (1 / 10) 0 0 ⟨[], 101, 0, 101⟩ 0
      ⟨"d", "BUY", 10, 10, 0, 100⟩
      (by norm_num [simulateTrades_step, fallData, day, closeAt, dateAt, static_cast_int])).1
    rfl).2


/-! ### Dividends -/

theorem static_cast_int_intCast (n : Int) : static_cast_int (n : ℚ) = n := by
  simp [static_cast_int]

/-- Holding a position through `m` days without a SELL signal changes neither
the log nor the shares, and adds each day's dividend to the cash. -/
theorem hold_accrual (data : List PriceData) (signals : List Int)
    (initial_capital flat_fee percent_fee slippage dividend_yield : ℚ)
    (hdy : 0 < dividend_yield) (a m : Nat)
    (hpos : 0 < (simulateTrades_loop data signals initial_capital flat_fee percent_fee
      slippage dividend_yield a).shares)
    (hsig : ∀ i, a ≤ i → i < a + m → signals.getD i 0 ≠ -1) :
    (simulateTrades_loop data signals initial_capital flat_fee percent_fee slippage
        dividend_yield (a + m)).shares
      = (simulateTrades_loop data signals initial_capital flat_fee percent_fee slippage
        dividend_yield a).shares ∧
    (simulateTrades_loop data signals initial_capital flat_fee percent_fee slippage
        dividend_yield (a + m)).cash
      = (simulateTrades_loop data signals initial_capital flat_fee percent_fee slippage
        dividend_yield a).cash
        + dividendSum data (simulateTrades_loop data signals initial_capital flat_fee
            percent_fee slippage dividend_yield a).shares dividend_yield a m := by
  induction m with
  | zero => simp [dividendSum]
  | succ m ih =>
    obtain ⟨hs, hc⟩ := ih (fun i h1 h2 => hsig i h1 (by omega))
    rw [← Nat.add_assoc, simulateTrades_loop_succ]
    rcases simulateTrades_step_cases data signals flat_fee percent_fee slippage
      dividend_yield (simulateTrades_loop data signals initial_capital flat_fee percent_fee
        slippage dividend_yield (a + m)) (a + m)
      with ⟨_, hz, _, _⟩ | ⟨_, hz, _, _⟩ | ⟨hm, _, _⟩ | ⟨_, _, heq⟩
    · rw [hs] at hz; omega
    · rw [hs] at hz; omega
    · exact absurd hm (hsig (a + m) (by omega) (by omega))
    · rw [heq]
      refine ⟨hs, ?_⟩
      simp only [accrued, hs, hc]
      rw [if_pos ⟨hpos, hdy⟩, dividendSum_succ]
      ring

/-- The scenario of C12 up to the closes after the purchase: capital 10000
buys 100 shares at close 100 on day 0, and the cash added by day 252 is the
sum of the daily dividends `100 * close[i] * (0.05 / 252)` of days 1 to 252. -/
theorem dividend_scenario (data : List PriceData) (signals : List Int)
    (hc0 : closeAt data 0 = 100) (hs0 : signals.getD 0 0 = 1)
    (hs : ∀ i, 1 ≤ i → i ≤ 252 → signals.getD i 0 = 0) :
    (simulateTrades_loop data signals 10000 0 0 0 (1 / 20) 1).shares = 100 ∧
    (simulateTrades_loop data signals 10000 0 0 0 (1 / 20) 253).shares = 100 ∧
    (simulateTrades_loop data signals 10000 0 0 0 (1 / 20) 253).cash
      - (simulateTrades_loop data signals 10000 0 0 0 (1 / 20) 1).cash
      = ((List.range 252).map
          (fun j => (100 : ℚ) * closeAt data (1 + j) * ((1 / 20) / 252))).sum := by
  have h1 : (simulateTrades_loop data signals 10000 0 0 0 (1 / 20) 1).shares = 100 := by
    have e : static_cast_int (100 : ℚ) = 100 := static_cast_int_intCast 100
    simp only [simulateTrades_loop, List.range_succ, List.range_zero, List.nil_append,
      List.foldl_cons, List.foldl_nil, simulateTrades_step, simulateTrades_init, hs0, hc0]
    norm_num
    rw [e]
    norm_num
  have hold := hold_accrual data signals 10000 0 0 0 (1 / 20) (by norm_num) 1 252
    (by rw [h1]; norm_num)
    (fun i hi1 hi2 => by rw [hs i hi1 (by omega)]; decide)
  rw [h1] at hold
  refine ⟨h1, hold.1, ?_⟩
  rw [show (253 : Nat) = 1 + 252 from rfl, hold.2]
  unfold dividendSum
  simp

/-- C12, as the code has it: with `dividend_yield = 0.05` and zero fees, 100
shares bought at close 100 and held for the next 252 days collect the sum of
`100 * close[i] * (0.05 / 252)` over those days, which is exactly 500 when the
close stays at 100 on each of them.  The same cash is in `getEquityCurve`. -/
theorem dividend_accrual_252 (data : List PriceData) (signals : List Int)
    (_hlen : 253 ≤ data.length) (_hsig : signals.length = data.length)
    (hc0 : closeAt data 0 = 100) (hs0 : signals.getD 0 0 = 1)
    (hs : ∀ i, 1 ≤ i → i ≤ 252 → signals.getD i 0 = 0) :
    (simulateTrades_loop data signals 10000 0 0 0 (1 / 20) 253).shares = 100 ∧
    (simulateTrades_loop data signals 10000 0 0 0 (1 / 20) 253).cash
      - (simulateTrades_loop data signals 10000 0 0 0 (1 / 20) 1).cash
      = ((List.range 252).map
          (fun j => (100 : ℚ) * closeAt data (1 + j) * ((1 / 20) / 252))).sum ∧
    ((∀ i, 1 ≤ i → i ≤ 252 → closeAt data i = 100) →
      (simulateTrades_loop data signals 10000 0 0 0 (1 / 20) 253).cash
        - (simulateTrades_loop data signals 10000 0 0 0 (1 / 20) 1).cash = 500) ∧
    (getEquityCurve_loop data signals 10000 0 0 0 (1 / 20) 253).cash
      = (simulateTrades_loop data signals 10000 0 0 0 (1 / 20) 253).cash := by
  obtain ⟨_, h253, hsum⟩ := dividend_scenario data signals hc0 hs0 hs
  refine ⟨h253, hsum, ?_, (loops_agree data signals 10000 0 0 0 (1 / 20) 253).1.symm⟩
  intro hflat
  rw [hsum]
  have hmap : (List.range 252).map
      (fun j => (100 : ℚ) * closeAt data (1 + j) * ((1 / 20) / 252))
      = (List.range 252).map (fun _ => (100 : ℚ) * 100 * ((1 / 20) / 252)) := by
    apply List.map_congr_left
    intro j hj
    rw [List.mem_range] at hj
    rw [hflat (1 + j) (by omega) (by omega)]
  rw [hmap, List.map_const', List.sum_replicate, List.length_range]
  norm_num


theorem doubledData_length : doubledData.length = 253 := by
  unfold doubledData
  rw [List.length_cons, List.length_replicate]

theorem heldData_length : heldData.length = 253 := by
  unfold heldData
  rw [List.length_cons, List.length_replicate]

theorem buyAndHold_length : buyAndHold.length = 253 := by
  unfold buyAndHold
  rw [List.length_cons, List.length_replicate]

theorem buyAndHold_later (i : Nat) (h1 : 1 ≤ i) (_h2 : i ≤ 252) : buyAndHold.getD i 0 = 0 := by
  obtain ⟨j, rfl⟩ : ∃ j, i = j + 1 := ⟨i - 1, by omega⟩
  unfold buyAndHold
  rw [List.getD_cons_succ, List.getD_eq_getElem?_getD, List.getElem?_replicate]
  split_ifs <;> rfl

theorem closeAt_cons_replicate (p q : PriceData) (n j : Nat) (hj : j < n) :
    closeAt (p :: List.replicate n q) (1 + j) = q.close := by
  unfold closeAt
  rw [Nat.add_comm, List.getD_cons_succ, List.getD_eq_getElem?_getD, List.getElem?_replicate,
    if_pos hj]
  rfl

/-- C12 fails as stated: the dividend cash depends on the closes after the
purchase.  With 100 shares bought at close 100 and the close at 200 on the
252 days that follow, the cash added by day 252 is 1000, not 500. -/
theorem dividend_depends_on_price_counterexample :
    doubledData.length = 253 ∧ buyAndHold.length = 253 ∧
    closeAt doubledData 0 = 100 ∧
    (simulateTrades_loop doubledData buyAndHold 10000 0 0 0 (1 / 20) 1).shares = 100 ∧
    (simulateTrades_loop doubledData buyAndHold 10000 0 0 0 (1 / 20) 253).shares = 100 ∧
    (simulateTrades_loop doubledData buyAndHold 10000 0 0 0 (1 / 20) 253).cash
      - (simulateTrades_loop doubledData buyAndHold 10000 0 0 0 (1 / 20) 1).cash = 1000 := by
  have hc0 : closeAt doubledData 0 = 100 := rfl
  obtain ⟨h1, h253, hsum⟩ := dividend_scenario doubledData buyAndHold hc0 rfl buyAndHold_later
  refine ⟨doubledData_length, buyAndHold_length, hc0, h1, h253, ?_⟩
  rw [hsum]
  have hmap : (List.range 252).map
      (fun j => (100 : ℚ) * closeAt doubledData (1 + j) * ((1 / 20) / 252))
      = (List.range 252).map (fun _ => (100 : ℚ) * 200 * ((1 / 20) / 252)) := by
    apply List.map_congr_left
    intro j hj
    rw [List.mem_range] at hj
    unfold doubledData
    rw [closeAt_cons_replicate _ _ _ _ hj]
    rfl
  rw [hmap, List.map_const', List.sum_replicate, List.length_range]
  norm_num

/-- Witness of the amended C12 on 253 days at close 100. -/
theorem dividend_accrual_252_witness :
    (simulateTrades_loop heldData buyAndHold 10000 0 0 0 (1 / 20) 253).cash
      - (simulateTrades_loop heldData buyAndHold 10000 0 0 0 (1 / 20) 1).cash = 500 :=
  (dividend_accrual_252 heldData buyAndHold (le_of_eq heldData_length.symm)
    (buyAndHold_length.trans heldData_length.symm) rfl rfl buyAndHold_later).2.2.1
    (fun i h1 h2 => by
      obtain ⟨j, rfl⟩ : ∃ j, i = 1 + j := ⟨i - 1, by omega⟩
      unfold heldData
      rw [closeAt_cons_replicate _ _ _ _ (by omega)]
      rfl)


/-! ### The Sharpe ratio -/

theorem foldl_add_eq_sum (g : ℚ → ℚ) (l : List ℚ) (a : ℚ) :
    l.foldl (fun s r => s + g r) a = a + (l.map g).sum := by
  induction l generalizing a with
  | nil => simp
  | cons x rest ih =>
    rw [List.foldl_cons, ih, List.map_cons, List.sum_cons]
    ring

theorem calc_sharpe_rets_loop (equity_curve : List ℚ) (m : Nat) :
    (List.range' 1 m).foldl
      (fun rets i =>
        rets ++ [(equity_curve.getD i 0 - equity_curve.getD (i - 1) 0)
          / equity_curve.getD (i - 1) 0])
      []
      = (List.range m).map
          (fun k => (equity_curve.getD (k + 1) 0 - equity_curve.getD k 0)
            / equity_curve.getD k 0) := by
  induction m with
  | zero => rfl
  | succ m ih =>
    rw [List.range'_concat, List.foldl_append, ih, List.range_succ, List.map_append]
    simp only [List.foldl_cons, List.foldl_nil, List.map_cons, List.map_nil]
    have e1 : 1 + 1 * m = m + 1 := by omega
    have e2 : m + 1 - 1 = m := by omega
    rw [e1, e2]

theorem calc_sharpe_rets_eq (equity_curve : List ℚ) :
    calc_sharpe_rets equity_curve = simpleReturns equity_curve := by
  unfold calc_sharpe_rets simpleReturns
  exact calc_sharpe_rets_loop equity_curve (equity_curve.length - 1)

/-- The value of `calc_sharpe` on a curve of two or more points, in terms of
the mean and the sample variance of the daily simple returns. -/
theorem calc_sharpe_eq (sqrt : ℚ → ℚ) (equity_curve : List ℚ) (h2 : 2 ≤ equity_curve.length) :
    calc_sharpe sqrt equity_curve
      = if sqrt (sampleVariance (simpleReturns equity_curve)) > 0 then
          meanOf (simpleReturns equity_curve)
            / sqrt (sampleVariance (simpleReturns equity_curve)) * sqrt 252
        else 0 := by
  unfold calc_sharpe
  rw [if_neg (by omega)]
  simp only [calc_sharpe_rets_eq]
  have hmean : (simpleReturns equity_curve).foldl (fun mean r => mean + r) 0
      / ((simpleReturns equity_curve).length : ℚ) = meanOf (simpleReturns equity_curve) := by
    have := foldl_add_eq_sum (fun r => r) (simpleReturns equity_curve) 0
    simp only [List.map_id', zero_add] at this
    rw [this]
    rfl
  have hvar : (simpleReturns equity_curve).foldl
      (fun stddev r => stddev + (r - meanOf (simpleReturns equity_curve))
        * (r - meanOf (simpleReturns equity_curve))) 0
      / (((simpleReturns equity_curve).length - 1 : Nat) : ℚ)
      = sampleVariance (simpleReturns equity_curve) := by
    rw [foldl_add_eq_sum (fun r => (r - meanOf (simpleReturns equity_curve))
        * (r - meanOf (simpleReturns equity_curve))), zero_add]
    rfl
  rw [hmean, hvar]

theorem sampleVariance_nonneg (rets : List ℚ) : 0 ≤ sampleVariance rets := by
  unfold sampleVariance
  apply div_nonneg
  · apply List.sum_nonneg
    intro x hx
    rw [List.mem_map] at hx
    obtain ⟨r, _, rfl⟩ := hx
    exact mul_self_nonneg _
  · exact Nat.cast_nonneg _

theorem simpleReturns_replicate (n : Nat) (c : ℚ) :
    simpleReturns (List.replicate n c) = List.replicate (n - 1) 0 := by
  unfold simpleReturns
  rw [List.length_replicate]
  apply List.ext_getElem
  · simp
  · intro k h1 h2
    simp only [List.length_map, List.length_range] at h1
    simp only [List.getElem_map, List.getElem_range, List.getElem_replicate]
    have e1 : (List.replicate n c).getD (k + 1) 0 = c := by
      rw [List.getD_eq_getElem?_getD, List.getElem?_replicate, if_pos (by omega)]; rfl
    have e2 : (List.replicate n c).getD k 0 = c := by
      rw [List.getD_eq_getElem?_getD, List.getElem?_replicate, if_pos (by omega)]; rfl
    rw [e1, e2, sub_self, zero_div]

theorem sampleVariance_zeros (m : Nat) : sampleVariance (List.replicate m 0) = 0 := by
  have hmean : meanOf (List.replicate m (0 : ℚ)) = 0 := by
    simp [meanOf, List.sum_replicate]
  unfold sampleVariance
  rw [hmean]
  simp [List.sum_replicate]


theorem sqrtRat_zero : sqrtRat 0 = 0 := by
  simp [sqrtRat, Rat.sqrt]

theorem sqrtRat_nonneg (x : ℚ) (_hx : 0 ≤ x) : 0 ≤ sqrtRat x := by
  unfold sqrtRat
  exact Rat.sqrt_nonneg x

/-- C16: `calc_sharpe` returns 0 for every equity curve with fewer than 2
points and for every curve with non-zero values whose daily simple returns
have zero sample standard deviation (any constant curve, for one); for every
other curve it returns `mean(r) / stddev(r) * sqrt(252)`, where
`r_i = (equity_i - equity_{i-1}) / equity_{i-1}` and `stddev` is the sample
standard deviation with denominator (number of returns - 1).  The square root
is any function that is 0 at 0 and non-negative on non-negative numbers. -/
theorem calc_sharpe_spec (sqrt : ℚ → ℚ) (h0 : sqrt 0 = 0)
    (hnn : ∀ x, 0 ≤ x → 0 ≤ sqrt x) (equity_curve : List ℚ) :
    (equity_curve.length < 2 → calc_sharpe sqrt equity_curve = 0) ∧
    ((∀ x ∈ equity_curve, x ≠ 0) → 2 ≤ equity_curve.length →
      sqrt (sampleVariance (simpleReturns equity_curve)) = 0 →
      calc_sharpe sqrt equity_curve = 0) ∧
    ((∀ x ∈ equity_curve, x ≠ 0) → 2 ≤ equity_curve.length →
      sqrt (sampleVariance (simpleReturns equity_curve)) ≠ 0 →
      calc_sharpe sqrt equity_curve
        = meanOf (simpleReturns equity_curve)
            / sqrt (sampleVariance (simpleReturns equity_curve)) * sqrt 252) ∧
    (∀ (n : Nat) (c : ℚ), c ≠ 0 → calc_sharpe sqrt (List.replicate n c) = 0) := by
  refine ⟨?_, ?_, ?_, ?_⟩
  · intro h
    unfold calc_sharpe
    rw [if_pos h]
  · intro _ h2 hz
    rw [calc_sharpe_eq sqrt equity_curve h2, hz, if_neg (lt_irrefl _)]
  · intro _ h2 hnz
    have hpos : sqrt (sampleVariance (simpleReturns equity_curve)) > 0 :=
      lt_of_le_of_ne (hnn _ (sampleVariance_nonneg _)) (Ne.symm hnz)
    rw [calc_sharpe_eq sqrt equity_curve h2, if_pos hpos]
  · intro n c _
    by_cases h2 : n < 2
    · unfold calc_sharpe
      rw [if_pos (by rw [List.length_replicate]; exact h2)]
    · rw [calc_sharpe_eq sqrt _ (by rw [List.length_replicate]; omega),
        simpleReturns_replicate, sampleVariance_zeros, h0, if_neg (lt_irrefl _)]

/-- Witness of C16 with the rational square root: a one-point curve and a
constant curve. -/
theorem calc_sharpe_spec_witness :
    calc_sharpe sqrtRat [100] = 0 ∧
    calc_sharpe sqrtRat (List.replicate 5 100) = 0 :=
  ⟨(calc_sharpe_spec sqrtRat sqrtRat_zero sqrtRat_nonneg [100]).1 (by decide),
   (calc_sharpe_spec sqrtRat sqrtRat_zero sqrtRat_nonneg []).2.2.2 5 100 (by norm_num)⟩


/-! ### CAGR -/

/-- C18, as the code has it: `calc_cagr` has no guard of its own; the driver
excludes the zero holding period.  `main` ends with exit code 1 on an empty
price series before any metric is computed, `years = data.size() / 252` is 0
only for the empty series, and for a non-empty series `years > 0` and
`calc_cagr` returns what the guarded CAGR returns. -/
theorem cagr_guarded_by_driver (pow : ℚ → ℚ → ℚ) (data : List PriceData)
    (initial final : ℚ) :
    (data = [] → main_cagr pow data initial final = Except.error 1) ∧
    (years data = 0 ↔ data = []) ∧
    (data ≠ [] →
      0 < years data ∧
      main_cagr pow data initial final
        = Except.ok (calc_cagr pow initial final (years data)) ∧
      guarded_cagr pow initial final (years data)
        = Except.ok (calc_cagr pow initial final (years data))) := by
  have hy : years data = 0 ↔ data = [] := by
    unfold years
    constructor
    · intro h
      have h252 : (252 : ℚ) ≠ 0 := by norm_num
      have hl : (data.length : ℚ) = 0 := by
        rcases div_eq_zero_iff.mp h with h | h
        · exact h
        · exact absurd h h252
      exact List.length_eq_zero.mp (by exact_mod_cast hl)
    · intro h
      rw [h]
      simp
  refine ⟨?_, hy, ?_⟩
  · intro h
    rw [h]
    rfl
  · intro hne
    have hpos : 0 < years data := by
      unfold years
      have : 0 < data.length := List.length_pos.mpr hne
      have h' : (0 : ℚ) < (data.length : ℚ) := by exact_mod_cast this
      positivity
    refine ⟨hpos, ?_, ?_⟩
    · unfold main_cagr
      cases data with
      | nil => exact absurd rfl hne
      | cons a l => rfl
    · unfold guarded_cagr calc_cagr
      rw [if_neg (ne_of_gt hpos)]

/-- C18 fails as stated: called with `years = 0`, `calc_cagr` evaluates its
one formula like for any other argument and returns a number, where the
guarded CAGR reports an error.  (In IEEE arithmetic the exponent `1.0 / 0` is
infinite and so is the result for `final > initial > 0`.) -/
theorem calc_cagr_unguarded_counterexample :
    calc_cagr powNat 100 110 0 = powNat (110 / 100) (1 / 0) - 1 ∧
    guarded_cagr powNat 100 110 0 = Except.error "years == 0" ∧
    (Except.ok (calc_cagr powNat 100 110 0) : Except String ℚ)
      ≠ guarded_cagr powNat 100 110 0 := by
  refine ⟨rfl, ?_, ?_⟩
  · unfold guarded_cagr
    rw [if_pos rfl]
  · unfold guarded_cagr
    rw [if_pos rfl]
    intro h
    cases h

/-- Witness of the amended C18: an empty series stops the driver, a four-day
series gives a positive holding period. -/
theorem cagr_guarded_by_driver_witness :
    main_cagr powNat [] 100 110 = Except.error 1 ∧ 0 < years sampleData :=
  ⟨(cagr_guarded_by_driver powNat [] 100 110).1 rfl,
   ((cagr_guarded_by_driver powNat sampleData 100 110).2.2 (by simp [sampleData])).1⟩

/-! ### The pipeline with a window larger than the series -/

theorem checked_step_eq (shortMA longMA : List (Option ℚ)) (signals : List Int) (i : Nat)
    (h1 : i < shortMA.length) (h2 : i < longMA.length) :
    generateCrossoverSignals_checked_step shortMA longMA (some signals) i
      = some (generateCrossoverSignals_step shortMA longMA signals i) := by
  have e1 : shortMA[i - 1]? = some (shortMA.getD (i - 1) none) := by
    rw [List.getD_eq_getElem?_getD, List.getElem?_eq_getElem (by omega)]; rfl
  have e2 : longMA[i - 1]? = some (longMA.getD (i - 1) none) := by
    rw [List.getD_eq_getElem?_getD, List.getElem?_eq_getElem (by omega)]; rfl
  have e3 : shortMA[i]? = some (shortMA.getD i none) := by
    rw [List.getD_eq_getElem?_getD, List.getElem?_eq_getElem h1]; rfl
  have e4 : longMA[i]? = some (longMA.getD i none) := by
    rw [List.getD_eq_getElem?_getD, List.getElem?_eq_getElem h2]; rfl
  unfold generateCrossoverSignals_checked_step generateCrossoverSignals_step
  rw [e1, e2, e3, e4]
  rcases shortMA.getD (i - 1) none with _ | s0 <;>
  rcases longMA.getD (i - 1) none with _ | l0 <;>
  rcases shortMA.getD i none with _ | s1 <;>
  rcases longMA.getD i none with _ | l1 <;>
  first
    | rfl
    | (simp only []; split_ifs <;> rfl)

theorem checked_foldl_eq (shortMA longMA : List (Option ℚ)) (idx : List Nat)
    (hidx : ∀ i ∈ idx, i < shortMA.length ∧ i < longMA.length) (signals : List Int) :
    idx.foldl (generateCrossoverSignals_checked_step shortMA longMA) (some signals)
      = some (idx.foldl (generateCrossoverSignals_step shortMA longMA) signals) := by
  induction idx generalizing signals with
  | nil => rfl
  | cons i rest ih =>
    have hi := hidx i (List.mem_cons_self _ _)
    rw [List.foldl_cons, List.foldl_cons, checked_step_eq _ _ _ _ hi.1 hi.2]
    exact ih (fun j hj => hidx j (List.mem_cons_of_mem _ hj)) _

/-- When both moving-average series are at least as long as the price series,
every read of `generateCrossoverSignals` is in range and the checked run
returns the signals of the unchecked one. -/
theorem generateCrossoverSignals_checked_eq (data : List PriceData)
    (shortMA longMA : List (Option ℚ))
    (hs : data.length ≤ shortMA.length) (hl : data.length ≤ longMA.length) :
    generateCrossoverSignals_checked data shortMA longMA
      = some (generateCrossoverSignals data shortMA longMA) := by
  unfold generateCrossoverSignals_checked generateCrossoverSignals
  apply checked_foldl_eq
  intro i hi
  rw [List.mem_range'_1] at hi
  omega

theorem checked_foldl_none (shortMA longMA : List (Option ℚ)) (idx : List Nat) :
    idx.foldl (generateCrossoverSignals_checked_step shortMA longMA) none = none := by
  induction idx with
  | nil => rfl
  | cons i rest ih => rw [List.foldl_cons]; exact ih


/-- C11 on the code: on ten days at close 100 a window of 11 or 12 makes both
moving-average calculators return the empty series, and the loop of
`generateCrossoverSignals`, run on these results, reads index 0 of an empty
series on its first iteration: the run has no defined result (`none`).  With a
window of 10, the largest that still gives series of the data's length, every
read is in range, no signal is produced, the trade log is empty and the
equity curve is 1000 on all ten days. -/
theorem pipeline_window_too_large :
    calculateSMA tenDays 11 = [] ∧ calculateSMA tenDays 12 = [] ∧
    calculateWMA tenDays 11 = [] ∧
    generateCrossoverSignals_checked tenDays (calculateSMA tenDays 11)
      (calculateSMA tenDays 12) = none ∧
    generateCrossoverSignals_checked tenDays (calculateSMA tenDays 10)
      (calculateWMA tenDays 10) = some (List.replicate 10 0) ∧
    simulateTrades tenDays (List.replicate 10 0) 1000 0 0 0 0 = [] ∧
    getEquityCurve tenDays (List.replicate 10 0) 1000 0 0 0 0 = List.replicate 10 1000 := by
  have hsma11 : calculateSMA tenDays 11 = [] := by
    unfold calculateSMA
    rw [if_pos (Or.inr (by decide))]
  have hsma12 : calculateSMA tenDays 12 = [] := by
    unfold calculateSMA
    rw [if_pos (Or.inr (by decide))]
  have hwma11 : calculateWMA tenDays 11 = [] := by
    unfold calculateWMA
    rw [if_pos (Or.inr (by decide))]
  have hnosig : ∀ i, i < tenDays.length → (List.replicate 10 (0 : Int)).getD i 0 ≠ 1 := by
    intro i _
    rw [List.getD_eq_getElem?_getD, List.getElem?_replicate]
    split_ifs <;> decide
  have hflat := no_buy_signal_flat tenDays (List.replicate 10 0) 1000 0 0 0 0 hnosig
  refine ⟨hsma11, hsma12, hwma11, ?_, ?_, hflat.1, hflat.2⟩
  · rw [hsma11, hsma12]
    unfold generateCrossoverSignals_checked
    have hr : List.range' 1 (tenDays.length - 1) = 1 :: List.range' 2 8 := rfl
    rw [hr, List.foldl_cons]
    have h1 : generateCrossoverSignals_checked_step [] []
        (some (List.replicate tenDays.length 0)) 1 = none := rfl
    rw [h1]
    exact checked_foldl_none _ _ _
  · have h10 : calculateSMA tenDays 10
        = [none, none, none, none, none, none, none, none, none, some 100] := by
      norm_num [calculateSMA, calculateSMA_step, tenDays, day, closeAt, List.range,
        List.range.loop, List.replicate]
    have w10 : calculateWMA tenDays 10
        = [none, none, none, none, none, none, none, none, none, some 100] := by
      norm_num [calculateWMA, calculateWMA_step, calculateWMA_weighted_sum, tenDays, day,
        closeAt, List.range, List.range.loop, List.replicate]
    rw [h10, w10]
    rfl


end SimulatedTrader
